import Mathlib

/-!
# Verification of the magnetico2bitmagnet ingestion pipeline

This file gives a shallow embedding, in Lean 4, of the ingestion-and-
normalization pipeline of the `magnetico2bitmagnet` repository:

* the multi-encoding text recovery function `decode_with_fallback`
  (shared verbatim by `magnetico2bitmagnet.py`, `torrent2bitmagnet.py` and
  `magnetico2database.py`);
* the bencode data model, the canonical bencode encoder used for
  info-hash computation (modelling `bencodepy.encode`), and a second,
  independently written reference encoder following the specification;
* the record extractors `get_torrent_details` of
  `torrent2database/torrent2database.py` (bencode source) and
  `magnetico2database/magnetico2database.py` (index source), with the
  file-list handling (`get_file_details`, `get_file_details_copy`);
* the destination-table model with `INSERT ... ON CONFLICT DO NOTHING`
  semantics, the bulk-copy insert model, and the two load orchestrators
  (`process_torrent_files`, `process_magnetico_database`).

Byte strings are modelled as `List Nat` (each entry a byte value), decoded
text as `List Nat` of Unicode code points.  External effects that the
Python code delegates to libraries are made explicit parameters:

* the SHA-1 digest (`hashlib.sha1(...).digest()`) is an abstract function
  `sha1 : List Nat → List Nat`;
* the decoders for the legacy multi-byte codecs (shift_jis, euc_jp, gbk,
  gb18030, cp1251) are an abstract parameter `mid`; UTF-8 and latin1 are
  modelled concretely, since the claims depend on their semantics;
* destination write errors (`psycopg2` exceptions) are modelled by
  fault-injection parameters deciding which INSERT statements raise.
-/

set_option linter.unusedVariables false
set_option linter.unreachableTactic false
set_option linter.unusedTactic false

/-! ## Byte-string order (Python `bytes` comparison, used by bencode key sorting) -/

/-- Lexicographic `≤` on byte strings, the order Python uses to compare
`bytes` values (and hence the order `sorted` puts bencode dictionary keys
in). -/
def bytesLe : List Nat → List Nat → Bool
  | [], _ => true
  | _ :: _, [] => false
  | a :: as, b :: bs => if a < b then true else if b < a then false else bytesLe as bs

theorem bytesLe_refl (a : List Nat) : bytesLe a a = true := by
  induction a with
  | nil => rfl
  | cons x xs ih => simp [bytesLe, ih]

theorem bytesLe_total (a b : List Nat) : bytesLe a b = true ∨ bytesLe b a = true := by
  induction a generalizing b with
  | nil => exact Or.inl rfl
  | cons x xs ih =>
    cases b with
    | nil => exact Or.inr rfl
    | cons y ys =>
      by_cases hxy : x < y
      · exact Or.inl (by simp [bytesLe, hxy])
      · by_cases hyx : y < x
        · exact Or.inr (by simp [bytesLe, hyx])
        · have hx : x = y := Nat.le_antisymm (Nat.le_of_not_lt hyx) (Nat.le_of_not_lt hxy)
          subst hx
          rcases ih ys with h | h
          · exact Or.inl (by simp [bytesLe, h])
          · exact Or.inr (by simp [bytesLe, h])

theorem bytesLe_antisymm {a b : List Nat} (hab : bytesLe a b = true)
    (hba : bytesLe b a = true) : a = b := by
  induction a generalizing b with
  | nil =>
    cases b with
    | nil => rfl
    | cons y ys => simp [bytesLe] at hba
  | cons x xs ih =>
    cases b with
    | nil => simp [bytesLe] at hab
    | cons y ys =>
      simp only [bytesLe] at hab hba
      by_cases hxy : x < y
      · have hyx : ¬ y < x := by omega
        simp [hxy, hyx] at hba
      · by_cases hyx : y < x
        · simp [hxy, hyx] at hab
        · have hx : x = y := by omega
          subst hx
          simp [Nat.lt_irrefl] at hab hba
          simp [ih hab hba]

theorem bytesLe_trans {a b c : List Nat} (hab : bytesLe a b = true)
    (hbc : bytesLe b c = true) : bytesLe a c = true := by
  induction a generalizing b c with
  | nil => rfl
  | cons x xs ih =>
    cases b with
    | nil => simp [bytesLe] at hab
    | cons y ys =>
      cases c with
      | nil => simp [bytesLe] at hbc
      | cons z zs =>
        simp only [bytesLe] at hab hbc ⊢
        by_cases hxy : x < y
        · by_cases hyz : y < z
          · have hxz : x < z := by omega
            simp [hxz]
          · by_cases hzy : z < y
            · simp [hyz, hzy] at hbc
            · have hy : y = z := by omega
              subst hy
              simp [hxy]
        · by_cases hyx : y < x
          · simp [hxy, hyx] at hab
          · have hx : x = y := by omega
            subst hx
            simp only [Nat.lt_irrefl, if_false] at hab
            by_cases hxz : x < z
            · simp [hxz]
            · by_cases hzx : z < x
              · simp only [bytesLe, hxz, hzx, if_true, if_false] at hbc
                exact absurd hbc (by simp)
              · have hz : x = z := by omega
                subst hz
                simp only [Nat.lt_irrefl, if_false] at hbc ⊢
                exact ih hab hbc

/-! ## Substring test (Python `"pat" in s`) -/

/-- `headMatches pat l`: `l` begins with `pat`. -/
def headMatches : List Nat → List Nat → Bool
  | [], _ => true
  | _ :: _, [] => false
  | p :: ps, x :: xs => p == x && headMatches ps xs

/-- `containsSub pat l`: `pat` occurs as a contiguous substring of `l`,
modelling Python's `pat in s` on strings. -/
def containsSub (pat : List Nat) : List Nat → Bool
  | [] => pat.isEmpty
  | x :: xs => headMatches pat (x :: xs) || containsSub pat xs

/-! ## UTF-8 codec model

A concrete model of CPython's strict UTF-8 decoder (`bytes.decode('utf-8')`,
RFC 3629: overlong encodings, surrogates and code points above U+10FFFF are
rejected) and of the lossy decoder `bytes.decode('utf-8', errors='replace')`
that substitutes U+FFFD for each maximal invalid subpart. -/

/-- A UTF-8 continuation byte (`0x80..0xBF`). -/
def utf8Cont (b : Nat) : Bool := 128 ≤ b && b ≤ 191

/-- Constraint on the first continuation byte of a 3-byte sequence
(excludes overlong encodings for lead `0xE0` and surrogates for `0xED`). -/
def utf8Lead3Ok (b c : Nat) : Bool :=
  utf8Cont c && (if b = 224 then 160 ≤ c else if b = 237 then c ≤ 159 else true)

/-- Constraint on the first continuation byte of a 4-byte sequence
(excludes overlong encodings for lead `0xF0` and values above U+10FFFF
for lead `0xF4`). -/
def utf8Lead4Ok (b c : Nat) : Bool :=
  utf8Cont c && (if b = 240 then 144 ≤ c else if b = 244 then c ≤ 143 else true)

/-- Strict UTF-8 decoding: `some` list of code points, or `none` when the
byte string is not valid UTF-8 (in Python: `UnicodeDecodeError`). -/
def utf8Decode : List Nat → Option (List Nat)
  | [] => some []
  | b :: rest =>
    if b ≤ 127 then (utf8Decode rest).map (fun cs => b :: cs)
    else if 194 ≤ b && b ≤ 223 then
      match rest with
      | c :: r =>
        if utf8Cont c then
          (utf8Decode r).map (fun cs => ((b - 192) * 64 + (c - 128)) :: cs)
        else none
      | [] => none
    else if 224 ≤ b && b ≤ 239 then
      match rest with
      | c :: d :: r =>
        if utf8Lead3Ok b c && utf8Cont d then
          (utf8Decode r).map
            (fun cs => ((b - 224) * 4096 + (c - 128) * 64 + (d - 128)) :: cs)
        else none
      | _ => none
    else if 240 ≤ b && b ≤ 244 then
      match rest with
      | c :: d :: e :: r =>
        if utf8Lead4Ok b c && utf8Cont d && utf8Cont e then
          (utf8Decode r).map
            (fun cs =>
              ((b - 240) * 262144 + (c - 128) * 4096 + (d - 128) * 64 + (e - 128)) :: cs)
        else none
      | _ => none
    else none

/-- The Unicode replacement character U+FFFD. -/
def replacementChar : Nat := 65533

/-- Lossy UTF-8 decoding with replacement characters, modelling
`bytes.decode('utf-8', errors='replace')`: each maximal invalid subpart is
replaced by one U+FFFD and decoding continues.  This function is total —
the terminal fallback of `decode_with_fallback` can never raise. -/
def utf8DecodeReplace : List Nat → List Nat
  | [] => []
  | b :: rest =>
    if b ≤ 127 then b :: utf8DecodeReplace rest
    else if 194 ≤ b && b ≤ 223 then
      match rest with
      | c :: r =>
        if utf8Cont c then ((b - 192) * 64 + (c - 128)) :: utf8DecodeReplace r
        else replacementChar :: utf8DecodeReplace (c :: r)
      | [] => [replacementChar]
    else if 224 ≤ b && b ≤ 239 then
      match rest with
      | c :: rest2 =>
        if utf8Lead3Ok b c then
          match rest2 with
          | d :: r =>
            if utf8Cont d then
              ((b - 224) * 4096 + (c - 128) * 64 + (d - 128)) :: utf8DecodeReplace r
            else replacementChar :: utf8DecodeReplace (d :: r)
          | [] => [replacementChar]
        else replacementChar :: utf8DecodeReplace (c :: rest2)
      | [] => [replacementChar]
    else if 240 ≤ b && b ≤ 244 then
      match rest with
      | c :: rest2 =>
        if utf8Lead4Ok b c then
          match rest2 with
          | d :: rest3 =>
            if utf8Cont d then
              match rest3 with
              | e :: r =>
                if utf8Cont e then
                  ((b - 240) * 262144 + (c - 128) * 4096 + (d - 128) * 64 + (e - 128)) ::
                    utf8DecodeReplace r
                else replacementChar :: utf8DecodeReplace (e :: r)
              | [] => [replacementChar]
            else replacementChar :: utf8DecodeReplace (d :: rest3)
          | [] => [replacementChar]
        else replacementChar :: utf8DecodeReplace (c :: rest2)
      | [] => [replacementChar]
    else replacementChar :: utf8DecodeReplace rest

/-! ## Text recovery: `decode_with_fallback`

Shared verbatim by `torrent2bitmagnet.py` (lines 12–20),
`magnetico2database/magnetico2database.py` (lines 36–44) and
`magnetico2bitmagnet/magnetico2bitmagnet.py`:

```python
def decode_with_fallback(byte_sequence,
        encodings=('utf-8', 'shift_jis', 'euc_jp', 'gbk', 'gb18030', 'cp1251', 'latin1')):
    for encoding in encodings:
        try:
            return byte_sequence.decode(encoding)
        except UnicodeDecodeError:
            continue
    return byte_sequence.decode('utf-8', errors='replace')
```
-/

/-- The codec names appearing in the default `encodings` tuple. -/
inductive PyEncoding where
  | utf8
  | shiftJis
  | eucJp
  | gbk
  | gb18030
  | cp1251
  | latin1
deriving DecidableEq, Repr

/-- A semantics for the five legacy codecs delegated to Python's codec
library: for each such encoding, either a decoded code-point list or
`none` (a `UnicodeDecodeError`). -/
def MidDecoders : Type := PyEncoding → List Nat → Option (List Nat)

/-- `bytes.decode(encoding)`: UTF-8 and latin1 are modelled concretely
(latin1 maps every byte `b` to code point `b` and never fails); the other
codecs are taken from the abstract semantics `mid`. -/
def pythonDecode (mid : MidDecoders) : PyEncoding → List Nat → Option (List Nat)
  | .utf8, b => utf8Decode b
  | .latin1, b => some b
  | e, b => mid e b

/-- The default `encodings` tuple of `decode_with_fallback`. -/
def defaultEncodings : List PyEncoding :=
  [.utf8, .shiftJis, .eucJp, .gbk, .gb18030, .cp1251, .latin1]

/-- `decode_with_fallback(byte_sequence, encodings)`: try each encoding in
order and return the first successful decode; if all fail, fall back to
lossy UTF-8 with replacement characters. -/
def decode_with_fallback (mid : MidDecoders) (byte_sequence : List Nat)
    (encodings : List PyEncoding := defaultEncodings) : List Nat :=
  match encodings.findSome? (fun e => pythonDecode mid e byte_sequence) with
  | some text => text
  | none => utf8DecodeReplace byte_sequence

/-! ## Bencode data model

`bencodepy.decode_from_file` produces nested dictionaries (with `bytes`
keys), lists, `bytes` values and `int` values.  `Bencode` is the type of
such decoded values. -/

inductive Bencode where
  | int (i : Int) : Bencode
  | str (s : List Nat) : Bencode
  | list (xs : List Bencode) : Bencode
  | dict (kvs : List (List Nat × Bencode)) : Bencode

/-- Order on dictionary entries by key bytes: the order in which Python's
`sorted(d.items())` arranges the entries of a decoded bencode dictionary
(keys are distinct, so the value component is never compared). -/
def keyLe (a b : List Nat × Bencode) : Prop := bytesLe a.1 b.1 = true

instance : DecidableRel keyLe := fun a b => inferInstanceAs (Decidable (_ = true))

instance : IsTotal (List Nat × Bencode) keyLe := ⟨fun a b => bytesLe_total a.1 b.1⟩

instance : IsTrans (List Nat × Bencode) keyLe := ⟨fun _ _ _ => bytesLe_trans⟩

/-- Bool version of `keyLe`, for `List.mergeSort`. -/
def keyLeB (a b : List Nat × Bencode) : Bool := bytesLe a.1 b.1

theorem perm_sizeOf_eq {α : Type} [SizeOf α] {l1 l2 : List α} (h : l1.Perm l2) :
    sizeOf l1 = sizeOf l2 := by
  induction h with
  | nil => rfl
  | cons x _ ih => simp [ih]
  | swap x y l => simp; omega
  | trans _ _ ih1 ih2 => omega

/-- `sorted(d.items())` as used by the bencodepy encoder: Python's `sorted`
is a stable comparison sort; on entries with pairwise distinct keys any
comparison sort produces the same list, modelled here by insertion sort. -/
def sortKeys (kvs : List (List Nat × Bencode)) : List (List Nat × Bencode) :=
  List.insertionSort keyLe kvs

theorem sizeOf_sortKeys (kvs : List (List Nat × Bencode)) :
    sizeOf (sortKeys kvs) = sizeOf kvs :=
  perm_sizeOf_eq (List.perm_insertionSort keyLe kvs)

/-- Deterministic key ordering of the reference encoder, realised by a
different sorting algorithm (merge sort). -/
def refSortKeys (kvs : List (List Nat × Bencode)) : List (List Nat × Bencode) :=
  List.mergeSort kvs keyLeB

theorem sizeOf_refSortKeys (kvs : List (List Nat × Bencode)) :
    sizeOf (refSortKeys kvs) = sizeOf kvs :=
  perm_sizeOf_eq (List.mergeSort_perm kvs keyLeB)

/-- ASCII decimal digits of a natural number (empty for 0). -/
def natDigits : Nat → List Nat
  | 0 => []
  | n + 1 => natDigits ((n + 1) / 10) ++ [48 + (n + 1) % 10]
decreasing_by exact Nat.div_lt_self (Nat.succ_pos n) (by omega)

/-- ASCII bytes of `str(i)` for a Python `int`: minimal decimal
representation, `-` sign for negatives, no leading zeros. -/
def intBytes (i : Int) : List Nat :=
  if i < 0 then 45 :: natDigits (-i).toNat
  else if i = 0 then [48]
  else natDigits i.toNat

/-- Bencode byte-string encoding: `<decimal length>:<bytes>`. -/
def strBytes (s : List Nat) : List Nat := intBytes s.length ++ (58 :: s)

/-! ### The canonical bencode encoder (model of `bencodepy.encode`)

`bencodepy.encode` writes integers as `i<str(i)>e`, byte strings as
`<len>:<bytes>`, lists as `l...e` and dictionaries as `d...e` with the
entries emitted in `sorted(d.items())` order. -/

mutual
def bencode_encode : Bencode → List Nat
  | .int i => 105 :: intBytes i ++ [101]
  | .str s => strBytes s
  | .list xs => 108 :: encodeVals xs ++ [101]
  | .dict kvs => 100 :: encodeEntries (sortKeys kvs) ++ [101]
termination_by v => sizeOf v
decreasing_by all_goals simp [sizeOf_sortKeys] <;> omega

def encodeVals : List Bencode → List Nat
  | [] => []
  | x :: xs => bencode_encode x ++ encodeVals xs
termination_by xs => sizeOf xs
decreasing_by all_goals simp <;> omega

def encodeEntries : List (List Nat × Bencode) → List Nat
  | [] => []
  | (k, v) :: rest => strBytes k ++ bencode_encode v ++ encodeEntries rest
termination_by kvs => sizeOf kvs
decreasing_by all_goals simp <;> omega
end

/-! ### The reference bencode encoder

Written independently from the specification's canonical encoding rules
(deterministic lexicographic key ordering, minimal integer representation,
no implicit typing), using a different sorting algorithm for the key
ordering. -/

mutual
def reference_encode : Bencode → List Nat
  | .int i => 105 :: intBytes i ++ [101]
  | .str s => strBytes s
  | .list xs => 108 :: refVals xs ++ [101]
  | .dict kvs => 100 :: refEntries (refSortKeys kvs) ++ [101]
termination_by v => sizeOf v
decreasing_by all_goals simp [sizeOf_refSortKeys] <;> omega

def refVals : List Bencode → List Nat
  | [] => []
  | x :: xs => reference_encode x ++ refVals xs
termination_by xs => sizeOf xs
decreasing_by all_goals simp <;> omega

def refEntries : List (List Nat × Bencode) → List Nat
  | [] => []
  | (k, v) :: rest => strBytes k ++ reference_encode v ++ refEntries rest
termination_by kvs => sizeOf kvs
decreasing_by all_goals simp <;> omega
end

/-! ### Well-formed bencode values

A value decoded by `bencodepy` always has pairwise distinct keys in every
dictionary (Python `dict`s cannot hold duplicate keys). -/

/-- Keys of an entry list are pairwise distinct. -/
def nodupKeysB : List (List Nat × Bencode) → Bool
  | [] => true
  | (k, _) :: rest => !(rest.any (fun kv => kv.1 == k)) && nodupKeysB rest

mutual
def wfBencode : Bencode → Bool
  | .int _ => true
  | .str _ => true
  | .list xs => wfList xs
  | .dict kvs => nodupKeysB kvs && wfEntries kvs
termination_by v => sizeOf v
decreasing_by all_goals simp <;> omega

def wfList : List Bencode → Bool
  | [] => true
  | x :: xs => wfBencode x && wfList xs
termination_by xs => sizeOf xs
decreasing_by all_goals simp <;> omega

def wfEntries : List (List Nat × Bencode) → Bool
  | [] => true
  | (_, v) :: rest => wfBencode v && wfEntries rest
termination_by kvs => sizeOf kvs
decreasing_by all_goals simp <;> omega
end

/-! ### Equality of the two encoders on well-formed values

Two comparison sorts agree on any entry list with pairwise distinct keys:
a sorted permutation of such a list is unique. -/

theorem nodupKeysB_map {kvs : List (List Nat × Bencode)} (h : nodupKeysB kvs = true) :
    (kvs.map Prod.fst).Nodup := by
  induction kvs with
  | nil => simp
  | cons kv rest ih =>
    obtain ⟨k, v⟩ := kv
    simp only [nodupKeysB, Bool.and_eq_true, Bool.not_eq_true'] at h
    simp only [List.map_cons, List.nodup_cons]
    refine ⟨?_, ih h.2⟩
    intro hk
    rcases List.mem_map.mp hk with ⟨kv', hkv', hfst⟩
    have : rest.any (fun kv => kv.1 == k) = true :=
      List.any_eq_true.mpr ⟨kv', hkv', by simp [hfst]⟩
    simp [this] at h

theorem sorted_nodupKeys_unique :
    ∀ {l1 l2 : List (List Nat × Bencode)}, l1.Perm l2 →
      List.Sorted keyLe l1 → List.Sorted keyLe l2 →
      (l1.map Prod.fst).Nodup → l1 = l2 := by
  intro l1
  induction l1 with
  | nil =>
    intro l2 h _ _ _
    exact h.symm.eq_nil.symm
  | cons a t1 ih =>
    intro l2 h hs1 hs2 hnd
    cases l2 with
    | nil => exact absurd h.eq_nil (by simp)
    | cons b t2 =>
      simp only [List.map_cons, List.nodup_cons] at hnd
      have hba : b = a := by
        have hbmem : b ∈ a :: t1 := h.mem_iff.mpr (List.mem_cons_self b t2)
        rcases List.mem_cons.mp hbmem with he | hbt
        · exact he
        · exfalso
          have hkab : keyLe a b := List.rel_of_sorted_cons hs1 b hbt
          have hamem : a ∈ b :: t2 := h.symm.mem_iff.mpr (List.mem_cons_self a t1)
          rcases List.mem_cons.mp hamem with hab | hat
          · exact hnd.1 (List.mem_map.mpr ⟨b, hbt, by rw [hab]⟩)
          · have hkba : keyLe b a := List.rel_of_sorted_cons hs2 a hat
            have hk : a.1 = b.1 := bytesLe_antisymm hkab hkba
            exact hnd.1 (List.mem_map.mpr ⟨b, hbt, hk.symm⟩)
      subst hba
      have ht : t1.Perm t2 := h.cons_inv
      rw [ih ht hs1.of_cons hs2.of_cons hnd.2]

theorem sorted_refSortKeys (kvs : List (List Nat × Bencode)) :
    List.Sorted keyLe (refSortKeys kvs) := by
  have h := @List.sorted_mergeSort (List Nat × Bencode) keyLeB
    (fun a b c hab hbc => by
      simp only [keyLeB] at hab hbc ⊢
      exact bytesLe_trans hab hbc)
    (fun a b => by
      simp only [keyLeB]
      rcases bytesLe_total a.1 b.1 with h | h <;> simp [h])
    kvs
  exact h.imp (fun hab => hab)

theorem sortKeys_eq_refSortKeys {kvs : List (List Nat × Bencode)}
    (h : nodupKeysB kvs = true) : sortKeys kvs = refSortKeys kvs := by
  apply sorted_nodupKeys_unique
  · exact (List.perm_insertionSort keyLe kvs).trans (List.mergeSort_perm kvs keyLeB).symm
  · exact List.sorted_insertionSort keyLe kvs
  · exact sorted_refSortKeys kvs
  · have hperm : List.Perm ((sortKeys kvs).map Prod.fst) (kvs.map Prod.fst) :=
      (List.perm_insertionSort keyLe kvs).map Prod.fst
    exact hperm.nodup_iff.mpr (nodupKeysB_map h)

theorem wfList_mem {xs : List Bencode} (h : wfList xs = true) :
    ∀ x ∈ xs, wfBencode x = true := by
  induction xs with
  | nil => simp
  | cons y ys ih =>
    simp only [wfList, Bool.and_eq_true] at h
    intro x hx
    rcases List.mem_cons.mp hx with rfl | hx'
    · exact h.1
    · exact ih h.2 x hx'

theorem wfEntries_mem {kvs : List (List Nat × Bencode)} (h : wfEntries kvs = true) :
    ∀ kv ∈ kvs, wfBencode kv.2 = true := by
  induction kvs with
  | nil => simp
  | cons p rest ih =>
    obtain ⟨k, v⟩ := p
    simp only [wfEntries, Bool.and_eq_true] at h
    intro kv hkv
    rcases List.mem_cons.mp hkv with rfl | hkv'
    · exact h.1
    · exact ih h.2 kv hkv'

theorem encodeVals_congr {xs : List Bencode}
    (h : ∀ x ∈ xs, bencode_encode x = reference_encode x) :
    encodeVals xs = refVals xs := by
  induction xs with
  | nil => simp [encodeVals, refVals]
  | cons y ys ih =>
    simp only [encodeVals, refVals]
    rw [h y (List.mem_cons_self y ys), ih (fun x hx => h x (List.mem_cons_of_mem y hx))]

theorem encodeEntries_congr {kvs : List (List Nat × Bencode)}
    (h : ∀ kv ∈ kvs, bencode_encode kv.2 = reference_encode kv.2) :
    encodeEntries kvs = refEntries kvs := by
  induction kvs with
  | nil => simp [encodeEntries, refEntries]
  | cons p rest ih =>
    obtain ⟨k, v⟩ := p
    simp only [encodeEntries, refEntries]
    rw [h (k, v) (List.mem_cons_self _ rest),
      ih (fun kv hkv => h kv (List.mem_cons_of_mem _ hkv))]

theorem encode_eq_reference_size :
    ∀ (n : Nat) (v : Bencode), sizeOf v ≤ n → wfBencode v = true →
      bencode_encode v = reference_encode v := by
  intro n
  induction n with
  | zero =>
    intro v hv _
    cases v <;> simp at hv
  | succ n ih =>
    intro v hv hwf
    cases v with
    | int i => simp [bencode_encode, reference_encode]
    | str s => simp [bencode_encode, reference_encode]
    | list xs =>
      simp only [wfBencode] at hwf
      have hxs : sizeOf xs ≤ n := by simp at hv; omega
      have hmem : ∀ x ∈ xs, bencode_encode x = reference_encode x := by
        intro x hx
        have hlt : sizeOf x < sizeOf xs := List.sizeOf_lt_of_mem hx
        exact ih x (by omega) (wfList_mem hwf x hx)
      simp only [bencode_encode, reference_encode]
      rw [encodeVals_congr hmem]
    | dict kvs =>
      simp only [wfBencode, Bool.and_eq_true] at hwf
      have hkvs : sizeOf kvs ≤ n := by simp at hv; omega
      have hmem : ∀ kv ∈ sortKeys kvs, bencode_encode kv.2 = reference_encode kv.2 := by
        intro kv hkv
        have hkv' : kv ∈ kvs := (List.mem_insertionSort keyLe).mp hkv
        have hlt : sizeOf kv < sizeOf kvs := List.sizeOf_lt_of_mem hkv'
        have hlt2 : sizeOf kv.2 ≤ sizeOf kv := by
          obtain ⟨k, v'⟩ := kv
          simp
          try omega
        exact ih kv.2 (by omega) (wfEntries_mem hwf.2 kv hkv')
      simp only [bencode_encode, reference_encode]
      rw [encodeEntries_congr hmem, sortKeys_eq_refSortKeys hwf.1]

/-- On any well-formed bencode value (every dictionary has pairwise
distinct keys — always true of values decoded by `bencodepy`), the
modelled `bencodepy.encode` produces byte-for-byte the output of the
independently written reference encoder. -/
theorem bencode_encode_eq_reference {v : Bencode} (hwf : wfBencode v = true) :
    bencode_encode v = reference_encode v :=
  encode_eq_reference_size (sizeOf v) v (Nat.le_refl _) hwf

/-! ## Bencode accessors

Python dictionary/field access on decoded bencode values; `none` models an
exception (`KeyError` / `TypeError`) being raised at that access. -/

def bvLookup (kvs : List (List Nat × Bencode)) (k : List Nat) : Option Bencode :=
  (kvs.find? (fun kv => kv.1 == k)).map (fun kv => kv.2)

def asDict : Bencode → Option (List (List Nat × Bencode))
  | .dict kvs => some kvs
  | _ => none

def asInt : Bencode → Option Int
  | .int i => some i
  | _ => none

def asStr : Bencode → Option (List Nat)
  | .str s => some s
  | _ => none

def asList : Bencode → Option (List Bencode)
  | .list xs => some xs
  | _ => none

/-- The dictionary keys used by the extractors (`b'info'`, `b'name'`,
`b'length'`, `b'files'`, `b'path'`, `b'creation date'`), as ASCII bytes. -/
def infoKey : List Nat := [105, 110, 102, 111]

def nameKey : List Nat := [110, 97, 109, 101]

def lengthKey : List Nat := [108, 101, 110, 103, 116, 104]

def filesKey : List Nat := [102, 105, 108, 101, 115]

def pathKey : List Nat := [112, 97, 116, 104]

def creationDateKey : List Nat := [99, 114, 101, 97, 116, 105, 111, 110, 32, 100, 97, 116, 101]

/-- The padding-file marker `"_____padding"` as code points. -/
def paddingMark1 : List Nat := [95, 95, 95, 95, 95, 112, 97, 100, 100, 105, 110, 103]

/-- The padding-file marker `".____padding"` as code points. -/
def paddingMark2 : List Nat := [46, 95, 95, 95, 95, 112, 97, 100, 100, 105, 110, 103]

/-- `os.path.join(a, b)` on POSIX for two path components. -/
def ospath_join_two (a b : List Nat) : List Nat :=
  if headMatches [47] b then b
  else if a == [] then b
  else if a.getLast? == some 47 then a ++ b
  else a ++ 47 :: b

/-- `os.path.join(p0, *rest)` on POSIX. -/
def ospath_join (p0 : List Nat) (rest : List (List Nat)) : List Nat :=
  rest.foldl ospath_join_two p0

/-! ## The destination schema (shared by both loaders)

Each table is a row list in insertion order; `INSERT ... ON CONFLICT DO
NOTHING` is a conditional append keyed on the statement's conflict
target. -/

/-- A row of `torrents` — the first eight components of the details tuple
(`torrent_details[:-1]`, line 218). -/
structure TorrentRow where
  info_hash : List Nat
  name : List Nat
  size : Int
  is_private : Bool
  created_at : Int
  updated_at : Int
  files_status : String
  files_count : Option Int
deriving DecidableEq, Repr

/-- A row of `torrent_files`. -/
structure FileRow where
  info_hash : List Nat
  idx : Nat
  path : List Nat
  size : Int
deriving DecidableEq, Repr

/-- A row of `torrents_torrent_sources`. -/
structure SourceRow where
  source : String
  info_hash : List Nat
  published_at : Int
deriving DecidableEq, Repr

/-- A row of `torrent_contents`. -/
structure ContentRow where
  info_hash : List Nat
  created_at : Int
deriving DecidableEq, Repr

/-- The destination database state. -/
structure Tables where
  torrents : List TorrentRow
  torrent_files : List FileRow
  torrents_torrent_sources : List SourceRow
  torrent_contents : List ContentRow
deriving DecidableEq, Repr

/-- `INSERT INTO torrents ... ON CONFLICT (info_hash) DO NOTHING`. -/
def insertTorrentRow (tbl : List TorrentRow) (r : TorrentRow) : List TorrentRow :=
  if tbl.any (fun t => t.info_hash == r.info_hash) then tbl else tbl ++ [r]

/-- `INSERT INTO torrent_files ... ON CONFLICT (info_hash, path) DO NOTHING`. -/
def insertFileRow (tbl : List FileRow) (r : FileRow) : List FileRow :=
  if tbl.any (fun t => t.info_hash == r.info_hash && t.path == r.path) then tbl
  else tbl ++ [r]

/-- `INSERT INTO torrents_torrent_sources ... ON CONFLICT (source, info_hash)
DO NOTHING`. -/
def insertSourceRow (tbl : List SourceRow) (r : SourceRow) : List SourceRow :=
  if tbl.any (fun t => t.source == r.source && t.info_hash == r.info_hash) then tbl
  else tbl ++ [r]

/-- `INSERT INTO torrent_contents ... ON CONFLICT DO NOTHING` (the only
unique constraint is the `info_hash` primary key). -/
def insertContentRow (tbl : List ContentRow) (r : ContentRow) : List ContentRow :=
  if tbl.any (fun t => t.info_hash == r.info_hash) then tbl else tbl ++ [r]


namespace T2DB

/-! ## `torrent2database/torrent2database.py`

The bencode-source loader.  One destination database is modelled by four
tables (each a row list in insertion order); `INSERT ... ON CONFLICT DO
NOTHING` is a conditional append keyed on the statement's conflict target.
The two `datetime.now(timezone.utc)` bookkeeping columns on file rows are
omitted from the row model (no claim mentions them); `created_at` of the
torrent/source/content rows is the record's extracted creation date, kept
as a Unix timestamp `Int` instead of a formatted string. -/

/-- The 9-tuple returned by `get_torrent_details` (line 87), as a named
structure: `(info_hash, name, total_size, False, creation_date,
creation_date, file_status, files_count, files_info)`. -/
structure TorrentDetails where
  info_hash : List Nat
  name : List Nat
  total_size : Int
  is_private : Bool
  created_at : Int
  updated_at : Int
  files_status : String
  files_count : Option Int
  files_info : List (Nat × List Nat × Int)
deriving DecidableEq, Repr

/-- The file loop of `get_torrent_details` (lines 71–79): for each file,
join the decoded path parts, read the length, append `(actual_files_count,
file_path, file_size)` when `import_padding or (no padding marker in the
path and actual_files_count < add_files_limit)`, and `break` as soon as
`actual_files_count >= add_files_limit`. -/
def filesLoop (mid : MidDecoders) (import_padding : Bool) (add_files_limit : Int) :
    List Bencode → Nat → List (Nat × List Nat × Int) → Option (List (Nat × List Nat × Int))
  | [], _, acc => some acc
  | f :: rest, actual, acc =>
    match asDict f with
    | none => none
    | some fd =>
      match (bvLookup fd pathKey).bind asList with
      | none => none
      | some parts =>
        match parts.mapM asStr with
        | none => none
        | some partsBytes =>
          match partsBytes.map (fun p => decode_with_fallback mid p) with
          | [] => none
          | p0 :: prest =>
            let file_path := ospath_join p0 prest
            match (bvLookup fd lengthKey).bind asInt with
            | none => none
            | some file_size =>
              let keep := import_padding ||
                (!(containsSub paddingMark1 file_path) &&
                  !(containsSub paddingMark2 file_path) &&
                  decide ((actual : Int) < add_files_limit))
              let acc1 := if keep then acc ++ [(actual, file_path, file_size)] else acc
              let actual1 := if keep then actual + 1 else actual
              if decide (add_files_limit ≤ (actual1 : Int)) then some acc1
              else filesLoop mid import_padding add_files_limit rest actual1 acc1

/-- `get_torrent_details(torrent_path, add_files, add_files_limit,
import_padding)` (lines 51–93), restricted to the records whose size slot
is an integer.  `parsed` is the result of `bencodepy.decode_from_file`
(`none`: the parse raised); any exception in the body yields `none` (the
function's `except` clause).  The inner `try/except` around the creation
date falls back to the current time `now`; `sha1` is the abstract digest
function.

Two deliberate restrictions of this typed view:
* the source performs *no* integer check on a present single-file
  `length` (line 81 assigns the raw decoded value and line 87 returns the
  tuple); the unchecked tuple is modelled by `get_torrent_details_raw`
  below, and the crash it later causes in the loader by
  `process_record_raw` — this typed view is `get_torrent_details_raw`
  restricted to integer sizes, which is all the statements built on it
  quantify over;
* text recovery here is `decode_with_fallback` (the preference-order
  loop); `torrent2database`'s own variant delegates to
  `charset_normalizer`, whose choice of decoded text none of the
  statements below depend on (their concrete inputs are ASCII, which
  every candidate codec decodes identically). -/
def get_torrent_details (mid : MidDecoders) (sha1 : List Nat → List Nat) (now : Int)
    (parsed : Option Bencode) (add_files : Bool) (add_files_limit : Int)
    (import_padding : Bool) : Option TorrentDetails :=
  match parsed with
  | none => none
  | some torrent_data =>
    match asDict torrent_data with
    | none => none
    | some td =>
      match bvLookup td infoKey with
      | none => none
      | some info_val =>
        let info_hash := sha1 (bencode_encode info_val)
        let creation_date : Int :=
          match bvLookup td creationDateKey with
          | some (.int i) => i
          | _ => now
        match asDict info_val with
        | none => none
        | some info_dict =>
          if (bvLookup info_dict lengthKey).isSome then
            match (bvLookup info_dict lengthKey).bind asInt with
            | none => none
            | some total_size =>
              match (bvLookup info_dict nameKey).bind asStr with
              | none => none
              | some nameBytes =>
                let name := decode_with_fallback mid nameBytes
                let files_info := if add_files then [(0, name, total_size)] else []
                some { info_hash := info_hash, name := name, total_size := total_size,
                       is_private := false, created_at := creation_date,
                       updated_at := creation_date, files_status := "single",
                       files_count := none, files_info := files_info }
          else
            match (bvLookup info_dict filesKey).bind asList with
            | none => none
            | some files =>
              let files_count : Option Int := some (files.length : Int)
              match files.mapM (fun f => (asDict f).bind
                  (fun fd => (bvLookup fd lengthKey).bind asInt)) with
              | none => none
              | some lengths =>
                let total_size := lengths.foldl (fun a b => a + b) 0
                match filesLoop mid import_padding add_files_limit files 0 [] with
                | none => none
                | some files_info =>
                  match (bvLookup info_dict nameKey).bind asStr with
                  | none => none
                  | some nameBytes =>
                    let name := decode_with_fallback mid nameBytes
                    some { info_hash := info_hash, name := name,
                           total_size := total_size, is_private := false,
                           created_at := creation_date, updated_at := creation_date,
                           files_status := "multi", files_count := files_count,
                           files_info := files_info }

/-- `torrent_details[:-1]` — the torrents row of a details tuple. -/
def rowOf (d : TorrentDetails) : TorrentRow :=
  { info_hash := d.info_hash, name := d.name, size := d.total_size,
    is_private := d.is_private, created_at := d.created_at,
    updated_at := d.updated_at, files_status := d.files_status,
    files_count := d.files_count }

/-- `insert_torrent(conn, torrent_details, torrent_path)` (lines 112–128):
returns `True` on success, `False` when the INSERT raised (rollback —
state unchanged).  `tfail` is the write-error fault model: which torrents
rows make `cur.execute` raise (e.g. a NUL byte in a text column). -/
def insert_torrent (tfail : TorrentRow → Bool) (db : Tables) (row : TorrentRow) :
    Tables × Bool :=
  if tfail row then (db, false)
  else ({ db with torrents := insertTorrentRow db.torrents row }, true)

/-- `insert_torrent_files(conn, info_hash, files_info, torrent_path)`
(lines 95–110): one conflict-tolerant INSERT per file entry. -/
def insert_torrent_files (db : Tables) (info_hash : List Nat)
    (files_info : List (Nat × List Nat × Int)) : Tables :=
  { db with torrent_files := (files_info.foldl
      (fun tbl fi => insertFileRow tbl
        { info_hash := info_hash, idx := fi.1, path := fi.2.1, size := fi.2.2 })
      db.torrent_files) }

/-- `insert_torrent_source(conn, source, info_hash, creation_date)`
(lines 130–143). -/
def insert_torrent_source (db : Tables) (source : String) (info_hash : List Nat)
    (creation_date : Int) : Tables :=
  { db with torrents_torrent_sources := (insertSourceRow db.torrents_torrent_sources
      { source := source, info_hash := info_hash, published_at := creation_date }) }

/-- `insert_torrent_content(conn, info_hash, creation_date)` (lines 145–163). -/
def insert_torrent_content (db : Tables) (info_hash : List Nat)
    (creation_date : Int) : Tables :=
  { db with torrent_contents := (insertContentRow db.torrent_contents
      { info_hash := info_hash, created_at := creation_date }) }

/-! ### The load orchestrator `process_torrent_files` -/

/-- Diagnostics printed by the loader, keyed by the torrent path. -/
inductive LogEntry where
  | extractionError (path : String)
  | sizeClampedToZero (path : String)
  | sizeNegativeSkipped (path : String)
  | sizeForceImported (path : String)
  | torrentInsertError (path : String)
deriving DecidableEq, Repr

/-- One source item: the file's path and the outcome of parsing it. -/
structure TorrentFileInput where
  path : String
  parsed : Option Bencode

/-- The run configuration plus the abstract external semantics. -/
structure Env where
  mid : MidDecoders
  sha1 : List Nat → List Nat
  now : Int
  tfail : TorrentRow → Bool
  source_name : String
  add_files : Bool
  add_files_limit : Int
  negative_to_zero : Bool
  force_import_negative : Bool
  import_padding : Bool

/-- Lines 217–226: parent insert, then (for a successful parent insert
only) file rows when `add_files and torrent_details[-1] and
torrent_details[6] != "single"`, then the source row, then the content
row. -/
def insert_phase (env : Env) (db : Tables) (details : TorrentDetails)
    (path : String) : Tables × List LogEntry :=
  let step := insert_torrent env.tfail db (rowOf details)
  if step.2 then
    let db2 := if env.add_files && !details.files_info.isEmpty &&
        details.files_status != "single"
      then insert_torrent_files step.1 details.info_hash details.files_info
      else step.1
    let db3 := insert_torrent_source db2 env.source_name details.info_hash
      details.created_at
    let db4 := insert_torrent_content db3 details.info_hash details.created_at
    (db4, [])
  else (step.1, [.torrentInsertError path])

/-- The per-record body of the loop in `process_torrent_files`
(lines 201–227): extraction, the negative-size policy (lines 206–216),
then the insert phase. -/
def process_record (env : Env) (db : Tables) (item : TorrentFileInput) :
    Tables × List LogEntry :=
  match get_torrent_details env.mid env.sha1 env.now item.parsed env.add_files
      env.add_files_limit env.import_padding with
  | none => (db, [.extractionError item.path])
  | some details =>
    if !env.force_import_negative && decide (details.total_size < 0) then
      if env.negative_to_zero then
        let step := insert_phase env db { details with total_size := 0 } item.path
        (step.1, .sizeClampedToZero item.path :: step.2)
      else (db, [.sizeNegativeSkipped item.path])
    else
      if env.force_import_negative && decide (details.total_size < 0) then
        let step := insert_phase env db details item.path
        (step.1, .sizeForceImported item.path :: step.2)
      else insert_phase env db details item.path

/-- One iteration of the loop of `process_torrent_files`: run the
per-record body on the current destination state and append its
diagnostics. -/
def process_step (env : Env) (st : Tables × List LogEntry)
    (it : TorrentFileInput) : Tables × List LogEntry :=
  let step := process_record env st.1 it
  (step.1, st.2 ++ step.2)

/-- `process_torrent_files` (lines 198–227): fold the per-record body over
the discovered torrent files, accumulating the diagnostics. -/
def process_torrent_files (env : Env) (items : List TorrentFileInput)
    (db : Tables) : Tables × List LogEntry :=
  items.foldl (process_step env) (db, [])

/-! ### The unchecked size slot (lines 81 and 206/215)

`get_torrent_details` above types the size slot as `Int`, which silently
assumes the integer check that line 81 of the source does *not* perform:
`total_size = info_dict[b'length']` assigns whatever bencode value the
key holds and line 87 returns the tuple.  The definitions below model the
tuple exactly as the source builds it, with the raw value in the size
slot, and follow it into `process_torrent_files`, where the comparison
`torrent_details[:-1][2] < 0` (line 206, or line 215 under
`--force-import-negative`) raises an uncaught `TypeError` on a non-`int`
and aborts the whole run. -/

/-- The 9-tuple of line 87 exactly as the source builds it: the size
slot and the per-file size slots hold the raw decoded bencode values (the
source never checks them). -/
structure RawTorrentDetails where
  info_hash : List Nat
  name : List Nat
  total_size : Bencode
  is_private : Bool
  created_at : Int
  updated_at : Int
  files_status : String
  files_count : Option Int
  files_info : List (Nat × List Nat × Bencode)

/-- `get_torrent_details` (lines 51–93) without the integer restriction:
in the single-file branch line 81 assigns `info_dict[b'length']` raw and
line 87 returns the tuple, whatever type the value has.  The multi-file
branch is unchanged from the typed view: there line 71 computes
`sum(file[b'length'] for ...)` *before* the file loop, and in Python a
sum starting from the `int` 0 succeeds only when every addend is an `int`
(no other bencode value type supports the addition), so it raises — caught
by the function's `except` — on any non-integer length, and the loop at
lines 72–79 only ever runs over integer lengths. -/
def get_torrent_details_raw (mid : MidDecoders) (sha1 : List Nat → List Nat) (now : Int)
    (parsed : Option Bencode) (add_files : Bool) (add_files_limit : Int)
    (import_padding : Bool) : Option RawTorrentDetails :=
  match parsed with
  | none => none
  | some torrent_data =>
    match asDict torrent_data with
    | none => none
    | some td =>
      match bvLookup td infoKey with
      | none => none
      | some info_val =>
        let info_hash := sha1 (bencode_encode info_val)
        let creation_date : Int :=
          match bvLookup td creationDateKey with
          | some (.int i) => i
          | _ => now
        match asDict info_val with
        | none => none
        | some info_dict =>
          match bvLookup info_dict lengthKey with
          | some total_size =>
            match (bvLookup info_dict nameKey).bind asStr with
            | none => none
            | some nameBytes =>
              let name := decode_with_fallback mid nameBytes
              let files_info := if add_files then [(0, name, total_size)] else []
              some { info_hash := info_hash, name := name, total_size := total_size,
                     is_private := false, created_at := creation_date,
                     updated_at := creation_date, files_status := "single",
                     files_count := none, files_info := files_info }
          | none =>
            match (bvLookup info_dict filesKey).bind asList with
            | none => none
            | some files =>
              let files_count : Option Int := some (files.length : Int)
              match files.mapM (fun f => (asDict f).bind
                  (fun fd => (bvLookup fd lengthKey).bind asInt)) with
              | none => none
              | some lengths =>
                let total_size := lengths.foldl (fun a b => a + b) 0
                match filesLoop mid import_padding add_files_limit files 0 [] with
                | none => none
                | some files_info =>
                  match (bvLookup info_dict nameKey).bind asStr with
                  | none => none
                  | some nameBytes =>
                    let name := decode_with_fallback mid nameBytes
                    some { info_hash := info_hash, name := name,
                           total_size := .int total_size, is_private := false,
                           created_at := creation_date, updated_at := creation_date,
                           files_status := "multi", files_count := files_count,
                           files_info := (files_info.map
                             (fun fi => (fi.1, fi.2.1, Bencode.int fi.2.2))) }

/-- The per-record loop body of `process_torrent_files` on the raw tuple.
The first number the record's tuple meets is the size test
`torrent_details[:-1][2] < 0` (line 206 when `--force-import-negative`
is off; line 215, reached through the short-circuit of line 206, when it
is on): on a non-`int` size slot that comparison raises an uncaught
`TypeError` (`none` — the run dies).  On an `int` size slot the tuple
carries exactly the data of the typed view and the record proceeds as
`process_record`. -/
def process_record_raw (env : Env) (db : Tables) (item : TorrentFileInput) :
    Option (Tables × List LogEntry) :=
  match get_torrent_details_raw env.mid env.sha1 env.now item.parsed env.add_files
      env.add_files_limit env.import_padding with
  | none => some (db, [.extractionError item.path])
  | some raw =>
    match asInt raw.total_size with
    | none => none
    | some _ => some (process_record env db item)

/-- `process_torrent_files` (lines 198–227) over the raw tuples.  Each
statement of the loop body commits on its own (every insert helper ends
in `conn.commit()`), so an uncaught exception leaves everything written
so far in place: `.error st` is the run dying at the current record with
state `st` — the remaining records are never processed. -/
def process_torrent_files_raw (env : Env) :
    List TorrentFileInput → Tables × List LogEntry →
      Except (Tables × List LogEntry) (Tables × List LogEntry)
  | [], st => .ok st
  | it :: rest, st =>
    match process_record_raw env st.1 it with
    | none => .error st
    | some step => process_torrent_files_raw env rest (step.1, st.2 ++ step.2)

/-- Configuration errors raised by `main` before any processing. -/
inductive ConfigError where
  | emptySourceName
  | conflictingNegativePolicies
deriving DecidableEq, Repr

/-- The argument validation at the top of `main` (lines 231–236): an empty
`--source-name` and the combination `--negative-to-zero` with
`--force-import-negative` abort before any database work. -/
def validate_args (source_name : String) (negative_to_zero : Bool)
    (force_import_negative : Bool) : Except ConfigError Unit :=
  if source_name.length == 0 then .error .emptySourceName
  else if negative_to_zero && force_import_negative then
    .error .conflictingNegativePolicies
  else .ok ()

/-- `main` (lines 229–262), restricted to the pipeline content: validate
the arguments, then process every discovered torrent file.  (The
interactive prompts and the `torrent_sources` bookkeeping row are I/O
plumbing outside the modelled core.) -/
def main (env : Env) (items : List TorrentFileInput) (db : Tables) :
    Except ConfigError (Tables × List LogEntry) :=
  match validate_args env.source_name env.negative_to_zero
      env.force_import_negative with
  | .error e => .error e
  | .ok _ => .ok (process_torrent_files env items db)

end T2DB

namespace M2DB

/-! ## `magnetico2database/magnetico2database.py`

The index-source loader.  Source rows come from the SQLite query
(lines 254–259); the companion `files` rows of a torrent are given by the
abstract query result `filesOf torrent_id` (`SELECT size, path FROM files
WHERE torrent_id = ?`).  Timestamps are kept as Unix epoch integers, as in
the source rows. -/

/-- One row of the `add_files` torrents query:
`(torrents.id, info_hash, name, total_size, discovered_on,
count(files.torrent_id))`. -/
structure MagneticoRow where
  torrent_id : Int
  info_hash : List Nat
  name : List Nat
  total_size : Int
  discovered_on : Int
  files_count : Int
deriving DecidableEq, Repr

/-- The 9-tuple built by `get_torrent_details` (lines 186–196):
`(torrent_id, info_hash, name, total_size, False, creation_date,
creation_date, file_status, files_count)`. -/
structure MDetails where
  torrent_id : Int
  info_hash : List Nat
  name : List Nat
  total_size : Int
  is_private : Bool
  created_at : Int
  updated_at : Int
  files_status : String
  files_count : Option Int
deriving DecidableEq, Repr

/-- `get_torrent_details(magnetico_torrent_data, add_files,
add_files_limit)` (lines 169–196).  With `add_files` disabled every
torrent is treated as having exactly one file.  (The `try/except` in the
source can only trigger on a malformed row tuple, which the fixed SQLite
query never produces; the model takes a well-typed row.) -/
def get_torrent_details (mid : MidDecoders) (row : MagneticoRow) (add_files : Bool)
    (add_files_limit : Int) : MDetails :=
  let files_count : Int := if add_files then row.files_count else 1
  let file_status : String :=
    if files_count == 1 then "single"
    else if decide (add_files_limit < files_count) then "over_threshold"
    else "multi"
  let files_count_out : Option Int := if files_count == 1 then none else some files_count
  { torrent_id := row.torrent_id, info_hash := row.info_hash,
    name := decode_with_fallback mid row.name, total_size := row.total_size,
    is_private := false, created_at := row.discovered_on,
    updated_at := row.discovered_on, files_status := file_status,
    files_count := files_count_out }

/-- `torrent[1:]` — the torrents row inserted for a details tuple
(line 158). -/
def rowOfM (d : MDetails) : TorrentRow :=
  { info_hash := d.info_hash, name := d.name, size := d.total_size,
    is_private := d.is_private, created_at := d.created_at,
    updated_at := d.updated_at, files_status := d.files_status,
    files_count := d.files_count }

/-- The loop of `get_file_details` (lines 202–216): `file_index` counts
every source row (also skipped ones); an entry is appended when
`import_padding or (no padding marker and file_index < add_files_limit)`;
the loop breaks once `file_index > add_files_limit`. -/
def fileDetailsLoop (mid : MidDecoders) (add_files_limit : Int) (import_padding : Bool) :
    List (Int × List Nat) → Nat → List (Nat × List Nat × Int) → List (Nat × List Nat × Int)
  | [], _, acc => acc
  | f :: rest, file_index, acc =>
    let file_path := decode_with_fallback mid f.2
    let file_size := f.1
    let keep := import_padding ||
      (!(containsSub paddingMark1 file_path) &&
        !(containsSub paddingMark2 file_path) &&
        decide ((file_index : Int) < add_files_limit))
    let acc1 := if keep then acc ++ [(file_index, file_path, file_size)] else acc
    if decide (add_files_limit < ((file_index + 1 : Nat) : Int)) then acc1
    else fileDetailsLoop mid add_files_limit import_padding rest (file_index + 1) acc1

/-- `get_file_details(torrent_detail, add_files_limit, files,
import_padding)` (lines 199–219): the row-by-row (non-copy) file
normalizer.  `files` are `(size, path)` rows of the per-torrent query. -/
def get_file_details (mid : MidDecoders) (torrent_detail : MDetails)
    (add_files_limit : Int) (files : List (Int × List Nat))
    (import_padding : Bool) : List (Nat × List Nat × Int) :=
  fileDetailsLoop mid add_files_limit import_padding files 0 []

/-- Diagnostics written with `tqdm.write` by the loader. -/
inductive MLogEntry where
  | duplicateFilePath (file_path : List Nat) (torrent_id : Int)
  | onlyEmptyFilenamesForce (torrent_id : Int)
  | onlyEmptyFilenamesSkip (torrent_id : Int)
deriving DecidableEq, Repr

/-- State of the `get_file_details_copy` generator: the `seen_files`
per-torrent path collections (insertion-ordered model of Python's `set`),
the yielded file rows and the diagnostics. -/
structure CopyState where
  seen : List (Int × List (List Nat))
  rows : List FileRow
  logs : List MLogEntry
deriving DecidableEq, Repr

/-- `seen_files.setdefault(torrent_id, set())` — the path collection of a
torrent (empty when absent). -/
def seenPaths (seen : List (Int × List (List Nat))) (tid : Int) : List (List Nat) :=
  match seen.find? (fun e => e.1 == tid) with
  | some e => e.2
  | none => []

/-- `torrent_file_paths.add(file_path)`. -/
def seenAdd (seen : List (Int × List (List Nat))) (tid : Int)
    (p : List Nat) : List (Int × List (List Nat)) :=
  if (seen.find? (fun e => e.1 == tid)).isSome then
    seen.map (fun e => if e.1 == tid then (e.1, e.2 ++ [p]) else e)
  else seen ++ [(tid, [p])]

/-- One iteration of the `get_file_details_copy` generator body
(lines 110–129) on a fetched `(torrent_id, size, path)` row: skip when the
torrent already has `add_files_limit` collected paths; decode; log and
skip a duplicated path; for a non-padding path, yield
`(info_hash, file_index, file_path, file_size)` and record the path.
(The `next(...)` lookup cannot miss: the SQL `WHERE torrent_id IN ...`
restricts the stream to the queried torrents; a missing id is modelled as
a skip.) -/
def copyStep (mid : MidDecoders) (torrents : List MDetails) (add_files_limit : Int)
    (import_padding : Bool) (st : CopyState) (file : Int × Int × List Nat) : CopyState :=
  let tid := file.1
  let paths := seenPaths st.seen tid
  let file_index := paths.length
  if decide (add_files_limit ≤ ((file_index : Nat) : Int)) then st
  else
    let file_path := decode_with_fallback mid file.2.2
    if paths.contains file_path then
      { st with logs := st.logs ++ [.duplicateFilePath file_path tid] }
    else
      let file_size := file.2.1
      if import_padding ||
          (!(containsSub paddingMark1 file_path) &&
            !(containsSub paddingMark2 file_path)) then
        match torrents.find? (fun t => t.torrent_id == tid) with
        | some torrent =>
          { seen := seenAdd st.seen tid file_path,
            rows := st.rows ++
              [{ info_hash := torrent.info_hash, idx := file_index,
                 path := file_path, size := file_size }],
            logs := st.logs }
        | none => st
      else st

/-- `get_file_details_copy(sqlite_cursor, torrents, add_files_limit,
import_padding)` (lines 105–130), with the cursor's row stream given as a
list. -/
def get_file_details_copy (mid : MidDecoders) (torrents : List MDetails)
    (add_files_limit : Int) (import_padding : Bool)
    (files : List (Int × Int × List Nat)) : CopyState :=
  files.foldl (copyStep mid torrents add_files_limit import_padding)
    { seen := [], rows := [], logs := [] }

/-! ### Batch inserts -/

/-- `insert_torrent(pg_cursor, torrents)` (lines 149–167): one multi-row
`INSERT ... ON CONFLICT DO NOTHING RETURNING info_hash`, returning the
hashes of the rows actually inserted (a row conflicting with an existing
row or with an earlier row of the same statement is not returned).
`pfail` is the write-error fault model for this statement; on an
exception the Python function returns `False`, modelled as `none`. -/
def insert_torrent (pfail : Bool) (tbl : List TorrentRow) (details : List MDetails) :
    Option (List TorrentRow × List (List Nat)) :=
  if pfail then none
  else some (details.foldl
    (fun st d =>
      if st.1.any (fun t => t.info_hash == d.info_hash) then st
      else (st.1 ++ [rowOfM d], st.2 ++ [d.info_hash]))
    (tbl, []))

/-- `insert_torrent_files(pg_cursor, info_hash, files_info)` (lines
88–102): one multi-row `INSERT ... ON CONFLICT DO NOTHING`. -/
def insert_torrent_files (tbl : List FileRow) (info_hash : List Nat)
    (files_info : List (Nat × List Nat × Int)) : List FileRow :=
  files_info.foldl
    (fun t fi => insertFileRow t
      { info_hash := info_hash, idx := fi.1, path := fi.2.1, size := fi.2.2 })
    tbl

/-- PostgreSQL `COPY` of rows into a table with a unique constraint, the
mechanism behind `pgcopy.CopyManager.threading_copy`: `COPY` has no
conflict handling, so a row violating the constraint makes the whole
statement raise and insert nothing. -/
def copySourceRows (tbl : List SourceRow) : List SourceRow → Option (List SourceRow)
  | [] => some tbl
  | r :: rest =>
    if tbl.any (fun t => t.source == r.source && t.info_hash == r.info_hash) then none
    else copySourceRows (tbl ++ [r]) rest

/-- `insert_torrent_source(pg_cursor, source, torrents, copy_manager)`
(lines 62–85): the bulk-copy path when a copy manager is available
(`pgcopy` importable), otherwise one multi-row
`INSERT ... ON CONFLICT DO NOTHING`. -/
def insert_torrent_source (use_copy : Bool) (tbl : List SourceRow) (source : String)
    (torrents : List MDetails) : Option (List SourceRow) :=
  let rows := torrents.map (fun d =>
    { source := source, info_hash := d.info_hash,
      published_at := d.created_at : SourceRow })
  if use_copy then copySourceRows tbl rows
  else some (rows.foldl insertSourceRow tbl)

/-- `insert_torrent_content(pg_cursor, torrents)` (lines 47–59): one
multi-row `INSERT ... ON CONFLICT DO NOTHING` into `torrent_contents`. -/
def insert_torrent_content (tbl : List ContentRow) (torrents : List MDetails) :
    List ContentRow :=
  torrents.foldl
    (fun t d => insertContentRow t { info_hash := d.info_hash, created_at := d.created_at })
    tbl

/-! ### The load orchestrator `process_magnetico_database` -/

/-- One window of the torrents cursor (`torrents.fetchmany()`), together
with the fault model for its parent INSERT statement. -/
structure Batch where
  rows : List MagneticoRow
  parent_insert_raises : Bool

/-- The run configuration plus the abstract external semantics of the
magnetico loader.  `filesOf tid` is the result of
`SELECT size, path FROM files WHERE torrent_id = ?`. -/
structure MEnv where
  mid : MidDecoders
  source_name : String
  add_files : Bool
  add_files_limit : Int
  insert_content : Bool
  import_padding : Bool
  force_import : Bool
  use_copy : Bool
  filesOf : Int → List (Int × List Nat)

/-- The file-import step of one batch for the row-by-row fallback path
(lines 299–322): for each newly inserted torrent, fetch and normalize its
file rows; when every surviving path is empty, either force-import with a
diagnostic or skip the torrent's file rows with a diagnostic. -/
def fileFallbackStep (env : MEnv) (st : List FileRow × List MLogEntry)
    (d : MDetails) : List FileRow × List MLogEntry :=
  let file_details := get_file_details env.mid d env.add_files_limit
    (env.filesOf d.torrent_id) env.import_padding
  let all_empty := file_details.all (fun fi => fi.2.1.isEmpty)
  if all_empty then
    if env.force_import then
      (insert_torrent_files st.1 d.info_hash file_details,
        st.2 ++ [.onlyEmptyFilenamesForce d.torrent_id])
    else (st.1, st.2 ++ [.onlyEmptyFilenamesSkip d.torrent_id])
  else (insert_torrent_files st.1 d.info_hash file_details, st.2)

/-- The body of the batch loop of `process_magnetico_database`
(lines 274–326): extract details for the fetched rows, bulk-insert the
parent rows, restrict to the newly inserted records
(`inserted = [next(detail for detail in torrent_details if detail[1] ==
inserted_hash) for inserted_hash in inserted_hashes]`), then file rows
(copy path or fallback path), source-attribution rows and optional
content rows for those records only.  `none` models an exception
escaping the batch (the `try` has only a `finally`). -/
def process_batch (env : MEnv) (db : Tables) (batch : Batch) :
    Option (Tables × List MLogEntry) :=
  let torrent_details := batch.rows.map
    (fun r => get_torrent_details env.mid r env.add_files env.add_files_limit)
  match insert_torrent batch.parent_insert_raises db.torrents torrent_details with
  | none => none
  | some parentStep =>
    let db1 := { db with torrents := parentStep.1 }
    let inserted := parentStep.2.filterMap
      (fun h => torrent_details.find? (fun d => d.info_hash == h))
    let fileStep :=
      if env.add_files then
        if env.use_copy then
          let cs := get_file_details_copy env.mid inserted env.add_files_limit
            env.import_padding
            (inserted.flatMap (fun d =>
              (env.filesOf d.torrent_id).map (fun f => (d.torrent_id, f.1, f.2))))
          (cs.rows.foldl insertFileRow db1.torrent_files, cs.logs)
        else inserted.foldl (fileFallbackStep env) (db1.torrent_files, [])
      else (db1.torrent_files, [])
    let db2 := { db1 with torrent_files := fileStep.1 }
    match insert_torrent_source env.use_copy db2.torrents_torrent_sources
        env.source_name inserted with
    | none => none
    | some srcTbl =>
      let db3 := { db2 with torrents_torrent_sources := srcTbl }
      let db4 :=
        if env.insert_content then
          { db3 with torrent_contents := (insert_torrent_content db3.torrent_contents inserted) }
        else db3
      some (db4, fileStep.2)

/-- The batch loop of `process_magnetico_database` (lines 271–329): the
whole run shares one transaction, so an exception anywhere aborts the
remaining batches. -/
def process_magnetico_database (env : MEnv) :
    List Batch → Tables → List MLogEntry → Option (Tables × List MLogEntry)
  | [], db, logs => some (db, logs)
  | b :: rest, db, logs =>
    match process_batch env db b with
    | none => none
    | some step => process_magnetico_database env rest step.1 (logs ++ step.2)

/-- `main` (lines 443–451), restricted to the pipeline content: the whole
load runs inside one transaction (`BEGIN` ... `commit`); any exception
rolls the transaction back, leaving the destination tables as they were
before the run. -/
def main (env : MEnv) (batches : List Batch) (db0 : Tables) : Tables :=
  match process_magnetico_database env batches db0 [] with
  | some res => res.1
  | none => db0

end M2DB

/-! ## Shared concrete instances for witnesses and counterexamples -/

/-- A middle-codec semantics that always fails; any other choice gives the
same results in the concrete statements below, which only exercise inputs
the UTF-8 decoder accepts. -/
def exMid : MidDecoders := fun _ _ => none

/-- A (degenerate) digest function for concrete statements whose content
does not depend on the digest. -/
def exSha1 : List Nat → List Nat := fun _ => [7]

/-! ## C10 — the lossy fallback of `decode_with_fallback` is unreachable
with the default encodings -/

/-- **C10.**  Because `latin1` is in the default candidate list and
decoding any byte sequence as latin1 never raises, the encoding loop in
`decode_with_fallback` always returns before exhausting the list — for
every byte sequence and every semantics of the legacy codecs, some
candidate decode succeeds and `decode_with_fallback` returns it; the
terminal `utf-8`-with-replacement fallback line is unreachable under the
default encodings tuple. -/
theorem C10_default_fallback_unreachable (mid : MidDecoders) (b : List Nat) :
    ∃ t, defaultEncodings.findSome? (fun e => pythonDecode mid e b) = some t ∧
      decode_with_fallback mid b = t := by
  have hres : ∃ t, defaultEncodings.findSome? (fun e => pythonDecode mid e b) = some t := by
    simp only [defaultEncodings, List.findSome?]
    cases h1 : pythonDecode mid .utf8 b with
    | some t => exact ⟨t, rfl⟩
    | none =>
      cases h2 : pythonDecode mid .shiftJis b with
      | some t => exact ⟨t, rfl⟩
      | none =>
        cases h3 : pythonDecode mid .eucJp b with
        | some t => exact ⟨t, rfl⟩
        | none =>
          cases h4 : pythonDecode mid .gbk b with
          | some t => exact ⟨t, rfl⟩
          | none =>
            cases h5 : pythonDecode mid .gb18030 b with
            | some t => exact ⟨t, rfl⟩
            | none =>
              cases h6 : pythonDecode mid .cp1251 b with
              | some t => exact ⟨t, rfl⟩
              | none => exact ⟨b, rfl⟩
  rcases hres with ⟨t, ht⟩
  exact ⟨t, ht, by simp [decode_with_fallback, ht]⟩

/-! ## C1 — info-hash correctness -/

/-- Structure of a successful extraction: the computed `info_hash` is the
digest of the bencodepy re-encoding of the `info` value, and
`files_status` is `"single"` exactly when the info dictionary carries a
top-level `length` field. -/
theorem asDict_dict (kvs : List (List Nat × Bencode)) :
    asDict (Bencode.dict kvs) = some kvs := rfl

theorem T2DB.get_torrent_details_spec (mid : MidDecoders) (sha1 : List Nat → List Nat)
    (now : Int) (add_files : Bool) (add_files_limit : Int) (import_padding : Bool)
    (td : List (List Nat × Bencode)) (info : Bencode)
    (info_dict : List (List Nat × Bencode)) (details : T2DB.TorrentDetails)
    (h1 : bvLookup td infoKey = some info)
    (h2 : asDict info = some info_dict)
    (hext : T2DB.get_torrent_details mid sha1 now (some (.dict td)) add_files
      add_files_limit import_padding = some details) :
    details.info_hash = sha1 (bencode_encode info) ∧
    details.files_status =
      (if (bvLookup info_dict lengthKey).isSome then "single" else "multi") := by
  simp only [T2DB.get_torrent_details, asDict_dict] at hext
  rw [h1] at hext
  simp only [h2] at hext
  repeat' split at hext
  all_goals
    first
    | exact Option.noConfusion hext
    | (rw [← Option.some.inj hext]; exact ⟨rfl, by simp [*]⟩)

/-- **C1.**  For every decoded torrent whose top-level dictionary contains
an `info` entry, whenever extraction succeeds the computed `info_hash` is
the digest of the canonical bencode re-encoding of that `info` value —
byte-for-byte the bytes an independently written reference bencode encoder
produces (the digest function itself is abstract, applied to identical
byte strings on both sides). -/
theorem C1_info_hash_canonical (mid : MidDecoders) (sha1 : List Nat → List Nat)
    (now : Int) (add_files : Bool) (add_files_limit : Int) (import_padding : Bool)
    (td : List (List Nat × Bencode)) (info : Bencode) (details : T2DB.TorrentDetails)
    (hinfo : bvLookup td infoKey = some info)
    (hwf : wfBencode info = true)
    (hext : T2DB.get_torrent_details mid sha1 now (some (.dict td)) add_files
      add_files_limit import_padding = some details) :
    details.info_hash = sha1 (reference_encode info) := by
  cases hd : asDict info with
  | none =>
    exfalso
    simp only [T2DB.get_torrent_details, asDict_dict] at hext
    rw [hinfo] at hext
    simp only [hd] at hext
    exact Option.noConfusion hext
  | some info_dict =>
    have h := T2DB.get_torrent_details_spec mid sha1 now add_files add_files_limit
      import_padding td info info_dict details hinfo hd hext
    rw [h.1, bencode_encode_eq_reference hwf]

/-- A small single-file torrent: `{info: {length: 1, name: "A"}}`. -/
def c1Info : Bencode := .dict [(lengthKey, .int 1), (nameKey, .str [65])]

def c1Td : List (List Nat × Bencode) := [(infoKey, c1Info)]

def c1Details : T2DB.TorrentDetails :=
  { info_hash := [7], name := [65], total_size := 1, is_private := false,
    created_at := 0, updated_at := 0, files_status := "single",
    files_count := none, files_info := [] }

theorem C1_info_hash_canonical_witness :
    bvLookup c1Td infoKey = some c1Info ∧ wfBencode c1Info = true ∧
    T2DB.get_torrent_details exMid exSha1 0 (some (.dict c1Td)) false 100 false =
      some c1Details ∧
    c1Details.info_hash = exSha1 (reference_encode c1Info) := by
  refine ⟨rfl, ?_, rfl, ?_⟩
  · simp only [c1Info, wfBencode, wfEntries, nodupKeysB]
    decide
  · exact C1_info_hash_canonical exMid exSha1 0 false 100 false c1Td c1Info c1Details
      rfl (by simp only [c1Info, wfBencode, wfEntries, nodupKeysB]; decide) rfl

/-! ## C5 — the negative-size policy -/

/-- The empty destination. -/
def emptyTables : Tables :=
  { torrents := [], torrent_files := [], torrents_torrent_sources := [],
    torrent_contents := [] }

/-- **C5.**  For a record with negative `total_size`, exactly one of three
mutually exclusive policies applies in `process_torrent_files`:
(1) under `--negative-to-zero` the persisted `size` is `0`;
(2) under the default (reject) policy no `torrents` row is written for the
record — the whole destination state is untouched;
(3) under `--force-import-negative` the negative size is persisted
unchanged; and
(4) selecting both flags is a configuration error raised by `main` before
any processing begins. -/
theorem C5_negative_size_policy :
    (∀ (env : T2DB.Env) (db : Tables) (item : T2DB.TorrentFileInput)
       (d : T2DB.TorrentDetails),
       T2DB.get_torrent_details env.mid env.sha1 env.now item.parsed env.add_files
         env.add_files_limit env.import_padding = some d →
       d.total_size < 0 → env.negative_to_zero = true →
       env.force_import_negative = false →
       env.tfail (T2DB.rowOf { d with total_size := 0 }) = false →
       db.torrents.any (fun t => t.info_hash == d.info_hash) = false →
       (T2DB.process_record env db item).1.torrents =
         db.torrents ++ [T2DB.rowOf { d with total_size := 0 }]) ∧
    (∀ (env : T2DB.Env) (db : Tables) (item : T2DB.TorrentFileInput)
       (d : T2DB.TorrentDetails),
       T2DB.get_torrent_details env.mid env.sha1 env.now item.parsed env.add_files
         env.add_files_limit env.import_padding = some d →
       d.total_size < 0 → env.negative_to_zero = false →
       env.force_import_negative = false →
       T2DB.process_record env db item =
         (db, [T2DB.LogEntry.sizeNegativeSkipped item.path])) ∧
    (∀ (env : T2DB.Env) (db : Tables) (item : T2DB.TorrentFileInput)
       (d : T2DB.TorrentDetails),
       T2DB.get_torrent_details env.mid env.sha1 env.now item.parsed env.add_files
         env.add_files_limit env.import_padding = some d →
       d.total_size < 0 → env.force_import_negative = true →
       env.tfail (T2DB.rowOf d) = false →
       db.torrents.any (fun t => t.info_hash == d.info_hash) = false →
       (T2DB.process_record env db item).1.torrents =
         db.torrents ++ [T2DB.rowOf d] ∧ (T2DB.rowOf d).size = d.total_size) ∧
    (∀ (env : T2DB.Env) (items : List T2DB.TorrentFileInput) (db : Tables),
       env.negative_to_zero = true → env.force_import_negative = true →
       env.source_name.length ≠ 0 →
       T2DB.main env items db = .error T2DB.ConfigError.conflictingNegativePolicies) := by
  refine ⟨?_, ?_, ?_, ?_⟩
  · intro env db item d hext hneg hntz hforce htfail hno
    have hno' : ∀ x ∈ db.torrents, ¬ x.info_hash = d.info_hash := by
      intro x hx hEq
      have htrue : db.torrents.any (fun t => t.info_hash == d.info_hash) = true :=
        List.any_eq_true.mpr ⟨x, hx, by simp [hEq]⟩
      rw [htrue] at hno
      exact Bool.noConfusion hno
    simp only [T2DB.process_record, hext, hforce, hntz, T2DB.insert_phase,
      T2DB.insert_torrent, htfail]
    simp [hneg, T2DB.insert_torrent_files, T2DB.insert_torrent_source,
      T2DB.insert_torrent_content, insertTorrentRow]
    split <;> (simp [T2DB.rowOf]; try exact hno')
  · intro env db item d hext hneg hntz hforce
    simp [T2DB.process_record, hext, hforce, hntz, hneg]
  · intro env db item d hext hneg hforce htfail hno
    have hno' : ∀ x ∈ db.torrents, ¬ x.info_hash = d.info_hash := by
      intro x hx hEq
      have htrue : db.torrents.any (fun t => t.info_hash == d.info_hash) = true :=
        List.any_eq_true.mpr ⟨x, hx, by simp [hEq]⟩
      rw [htrue] at hno
      exact Bool.noConfusion hno
    refine ⟨?_, rfl⟩
    simp only [T2DB.process_record, hext, hforce, T2DB.insert_phase,
      T2DB.insert_torrent, htfail]
    simp [hneg, T2DB.insert_torrent_files, T2DB.insert_torrent_source,
      T2DB.insert_torrent_content, insertTorrentRow]
    split <;> (simp [T2DB.rowOf]; try exact hno')
  · intro env items db hntz hforce hsrc
    simp [T2DB.main, T2DB.validate_args, hntz, hforce, List.length_eq_zero, hsrc]

/-- A single-file torrent declaring `length = -5`. -/
def c5Info : Bencode := .dict [(lengthKey, .int (-5)), (nameKey, .str [66])]

def c5Item : T2DB.TorrentFileInput :=
  { path := "neg.torrent", parsed := some (.dict [(infoKey, c5Info)]) }

def c5EnvBase : T2DB.Env :=
  { mid := exMid, sha1 := exSha1, now := 0, tfail := fun _ => false,
    source_name := "tor", add_files := false, add_files_limit := 100,
    negative_to_zero := false, force_import_negative := false,
    import_padding := false }

def c5EnvClamp : T2DB.Env := { c5EnvBase with negative_to_zero := true }

def c5EnvForce : T2DB.Env := { c5EnvBase with force_import_negative := true }

def c5EnvBad : T2DB.Env :=
  { c5EnvBase with negative_to_zero := true, force_import_negative := true }

def c5D : T2DB.TorrentDetails :=
  { info_hash := [7], name := [66], total_size := -5, is_private := false,
    created_at := 0, updated_at := 0, files_status := "single",
    files_count := none, files_info := [] }

theorem C5_negative_size_policy_witness :
    T2DB.get_torrent_details c5EnvClamp.mid c5EnvClamp.sha1 c5EnvClamp.now
      c5Item.parsed c5EnvClamp.add_files c5EnvClamp.add_files_limit
      c5EnvClamp.import_padding = some c5D ∧
    c5D.total_size < 0 ∧
    (T2DB.process_record c5EnvClamp emptyTables c5Item).1.torrents =
      emptyTables.torrents ++ [T2DB.rowOf { c5D with total_size := 0 }] ∧
    T2DB.process_record c5EnvBase emptyTables c5Item =
      (emptyTables, [T2DB.LogEntry.sizeNegativeSkipped c5Item.path]) ∧
    (T2DB.process_record c5EnvForce emptyTables c5Item).1.torrents =
      emptyTables.torrents ++ [T2DB.rowOf c5D] ∧
    T2DB.main c5EnvBad [] emptyTables =
      .error T2DB.ConfigError.conflictingNegativePolicies := by
  refine ⟨rfl, by decide, ?_, ?_, ?_, ?_⟩
  · exact C5_negative_size_policy.1 c5EnvClamp emptyTables c5Item c5D rfl
      (by decide) rfl rfl rfl rfl
  · exact C5_negative_size_policy.2.1 c5EnvBase emptyTables c5Item c5D rfl
      (by decide) rfl rfl
  · exact (C5_negative_size_policy.2.2.1 c5EnvForce emptyTables c5Item c5D rfl
      (by decide) rfl rfl rfl).1
  · exact C5_negative_size_policy.2.2.2 c5EnvBad [] emptyTables rfl rfl (by decide)

/-! ## C2 — parent-first insert ordering and orphan freedom -/

/-- The details tuple actually passed to `insert_torrent`: under the
clamp-to-zero policy a negative size has been replaced by `0`
(line 209), otherwise the tuple is unchanged. -/
def T2DB.adjustedDetails (env : T2DB.Env) (d : T2DB.TorrentDetails) :
    T2DB.TorrentDetails :=
  if !env.force_import_negative && decide (d.total_size < 0) && env.negative_to_zero
  then { d with total_size := 0 } else d

/-- A failing parent INSERT in any batch aborts the magnetico run: the
exception propagates out of the batch loop (`insert_torrent` returns
`False` and iterating over it raises). -/
theorem M2DB.process_fails_of_batch_raises (env : M2DB.MEnv) :
    ∀ (batches : List M2DB.Batch) (db : Tables) (logs : List M2DB.MLogEntry),
      (∃ b ∈ batches, b.parent_insert_raises = true) →
      M2DB.process_magnetico_database env batches db logs = none := by
  intro batches
  induction batches with
  | nil =>
    intro db logs h
    rcases h with ⟨b, hb, _⟩
    simp at hb
  | cons b rest ih =>
    intro db logs h
    by_cases hb : b.parent_insert_raises = true
    · simp [M2DB.process_magnetico_database, M2DB.process_batch,
        M2DB.insert_torrent, hb]
    · rcases h with ⟨b', hb', hr⟩
      rcases List.mem_cons.mp hb' with rfl | hmem
      · exact absurd hr hb
      · simp only [M2DB.process_magnetico_database]
        cases hpb : M2DB.process_batch env db b with
        | none => rfl
        | some step => exact ih _ _ ⟨b', hmem, hr⟩

/-- **C2 (amended).**  (a) In `torrent2database`, a record whose parent
INSERT raises is dropped with the destination untouched — in particular no
`torrent_files` or `torrents_torrent_sources` row is ever written for it.
(b) In `magnetico2database`, a failing parent INSERT aborts the run and
the whole-load transaction rolls back, leaving the destination exactly as
before the run. -/
theorem C2_parent_write_error_orphan_freedom :
    (∀ (env : T2DB.Env) (db : Tables) (item : T2DB.TorrentFileInput)
       (d : T2DB.TorrentDetails),
       T2DB.get_torrent_details env.mid env.sha1 env.now item.parsed env.add_files
         env.add_files_limit env.import_padding = some d →
       env.tfail (T2DB.rowOf (T2DB.adjustedDetails env d)) = true →
       (T2DB.process_record env db item).1 = db) ∧
    (∀ (env : M2DB.MEnv) (batches : List M2DB.Batch) (db0 : Tables),
       (∃ b ∈ batches, b.parent_insert_raises = true) →
       M2DB.main env batches db0 = db0) := by
  constructor
  · intro env db item d hext htfail
    simp only [T2DB.process_record, hext]
    by_cases h1 : (!env.force_import_negative && decide (d.total_size < 0)) = true
    · by_cases h2 : env.negative_to_zero = true
      · have hta : env.tfail (T2DB.rowOf { d with total_size := 0 }) = true := by
          simpa [T2DB.adjustedDetails, h1, h2] using htfail
        simp [h1, h2, T2DB.insert_phase, T2DB.insert_torrent, hta]
      · simp [h1, h2]
    · have hta : env.tfail (T2DB.rowOf d) = true := by
        simpa [T2DB.adjustedDetails, h1] using htfail
      simp only [h1, if_false]
      split
      all_goals simp_all [T2DB.insert_phase, T2DB.insert_torrent]
      split <;> rfl
  · intro env batches db0 h
    simp [M2DB.main, M2DB.process_fails_of_batch_raises env batches db0 [] h]

def c2Env : T2DB.Env :=
  { mid := exMid, sha1 := fun _ => [9], now := 0, tfail := fun _ => false,
    source_name := "tor", add_files := false, add_files_limit := 100,
    negative_to_zero := false, force_import_negative := false,
    import_padding := false }

def c2Item : T2DB.TorrentFileInput :=
  { path := "dup.torrent",
    parsed := some (.dict [(infoKey, .dict [(lengthKey, .int 1), (nameKey, .str [65])])]) }

/-- The parent row for info-hash `[9]`, as present from a prior load. -/
def c2Row : TorrentRow :=
  { info_hash := [9], name := [65], size := 1, is_private := false,
    created_at := 0, updated_at := 0, files_status := "single",
    files_count := none }

def c2Db : Tables :=
  { torrents := [c2Row], torrent_files := [], torrents_torrent_sources := [],
    torrent_contents := [] }

/-- **C2 is false as stated** for `torrent2database`: processing a record
whose `info_hash` already has a `torrents` row (so its parent row is *not*
newly inserted — the parent INSERT is a conflict no-op and the table is
unchanged) still writes child rows: a `torrents_torrent_sources` row
appears for that record. -/
theorem C2_counterexample :
    c2Db.torrents.any (fun t => t.info_hash == [9]) = true ∧
    (T2DB.process_record c2Env c2Db c2Item).1.torrents = c2Db.torrents ∧
    c2Db.torrents_torrent_sources = [] ∧
    (T2DB.process_record c2Env c2Db c2Item).1.torrents_torrent_sources =
      [{ source := "tor", info_hash := [9], published_at := 0 }] := by
  refine ⟨by decide, by decide, rfl, by decide⟩

def c2wEnv : T2DB.Env := { c2Env with tfail := fun _ => true }

def c2wD : T2DB.TorrentDetails :=
  { info_hash := [9], name := [65], total_size := 1, is_private := false,
    created_at := 0, updated_at := 0, files_status := "single",
    files_count := none, files_info := [] }

def c2wBatch : M2DB.Batch := { rows := [], parent_insert_raises := true }

def c2wMEnv : M2DB.MEnv :=
  { mid := exMid, source_name := "mag", add_files := false,
    add_files_limit := 100, insert_content := false, import_padding := false,
    force_import := false, use_copy := false, filesOf := fun _ => [] }

theorem C2_parent_write_error_orphan_freedom_witness :
    T2DB.get_torrent_details c2wEnv.mid c2wEnv.sha1 c2wEnv.now c2Item.parsed
      c2wEnv.add_files c2wEnv.add_files_limit c2wEnv.import_padding = some c2wD ∧
    c2wEnv.tfail (T2DB.rowOf (T2DB.adjustedDetails c2wEnv c2wD)) = true ∧
    (T2DB.process_record c2wEnv emptyTables c2Item).1 = emptyTables ∧
    (∃ b ∈ [c2wBatch], b.parent_insert_raises = true) ∧
    M2DB.main c2wMEnv [c2wBatch] emptyTables = emptyTables := by
  refine ⟨rfl, rfl, ?_, ⟨c2wBatch, by simp, rfl⟩, ?_⟩
  · exact C2_parent_write_error_orphan_freedom.1 c2wEnv emptyTables c2Item c2wD
      rfl rfl
  · exact C2_parent_write_error_orphan_freedom.2 c2wMEnv [c2wBatch] emptyTables
      ⟨c2wBatch, by simp, rfl⟩

/-! ## C3 — file-status classification and the `max_files` ceiling -/

/-- A well-formed multi-file entry `{length: sz, path: [p]}`. -/
def T2DB.simpleFile (p : List Nat) (sz : Int) : Bencode :=
  .dict [(lengthKey, .int sz), (pathKey, .list [.str p])]

theorem T2DB.filesLoop_simple (mid : MidDecoders) (limit : Int) :
    ∀ (ps : List (List Nat × Int)) (actual : Nat) (acc : List (Nat × List Nat × Int)),
      (∀ pr ∈ ps,
        containsSub paddingMark1 (decode_with_fallback mid pr.1) = false ∧
        containsSub paddingMark2 (decode_with_fallback mid pr.1) = false) →
      ∃ r, T2DB.filesLoop mid false limit
          (ps.map (fun pr => T2DB.simpleFile pr.1 pr.2)) actual acc = some r ∧
        r.length = acc.length + min ps.length (limit - (actual : Int)).toNat := by
  intro ps
  induction ps with
  | nil =>
    intro actual acc h
    exact ⟨acc, rfl, by simp⟩
  | cons pr rest ih =>
    intro actual acc h
    obtain ⟨h1, h2⟩ := h pr (List.mem_cons_self _ _)
    have e1 : asDict (T2DB.simpleFile pr.1 pr.2) =
        some [(lengthKey, .int pr.2), (pathKey, .list [.str pr.1])] := rfl
    have e2 : (bvLookup [(lengthKey, Bencode.int pr.2),
        (pathKey, .list [.str pr.1])] pathKey).bind asList = some [.str pr.1] := rfl
    have e3 : (bvLookup [(lengthKey, Bencode.int pr.2),
        (pathKey, .list [.str pr.1])] lengthKey).bind asInt = some pr.2 := rfl
    simp only [List.map_cons, T2DB.filesLoop, e1, e2, e3, List.mapM_cons,
      List.mapM_nil, asStr, Option.pure_def, Option.bind_some, Option.bind_eq_bind,
      Option.some_bind, List.map_nil, ospath_join, List.foldl_nil, h1, h2,
      Bool.not_false, Bool.false_or, Bool.true_and]
    by_cases hlt : (actual : Int) < limit
    · simp only [decide_eq_true hlt, if_true]
      by_cases hle : limit ≤ ((actual + 1 : Nat) : Int)
      · simp only [decide_eq_true hle, if_true]
        refine ⟨acc ++ [(actual, decode_with_fallback mid pr.1, pr.2)], rfl, ?_⟩
        simp only [List.length_append, List.length_cons, List.length_nil]
        omega
      · obtain ⟨r, hr, hlen⟩ := ih (actual + 1)
          (acc ++ [(actual, decode_with_fallback mid pr.1, pr.2)])
          (fun q hq => h q (List.mem_cons_of_mem _ hq))
        refine ⟨r, ?_, ?_⟩
        · simp only [decide_eq_false hle, if_false]
          exact hr
        · rw [hlen]
          simp only [List.length_append, List.length_cons, List.length_nil]
          omega
    · simp only [decide_eq_false hlt, Bool.and_false, if_false]
      have hle : limit ≤ ((actual : Nat) : Int) := by omega
      refine ⟨acc, ?_, ?_⟩
      · simp [decide_eq_true hle]
      · simp only [List.length_cons]
        omega

theorem M2DB.fileDetailsLoop_len (mid : MidDecoders) (limit : Int) :
    ∀ (files : List (Int × List Nat)) (idx : Nat) (acc : List (Nat × List Nat × Int)),
      (∀ f ∈ files,
        containsSub paddingMark1 (decode_with_fallback mid f.2) = false ∧
        containsSub paddingMark2 (decode_with_fallback mid f.2) = false) →
      (M2DB.fileDetailsLoop mid limit false files idx acc).length =
        acc.length + min files.length (limit - (idx : Int)).toNat := by
  intro files
  induction files with
  | nil =>
    intro idx acc h
    simp [M2DB.fileDetailsLoop]
  | cons f rest ih =>
    intro idx acc h
    obtain ⟨h1, h2⟩ := h f (List.mem_cons_self _ _)
    simp only [M2DB.fileDetailsLoop, h1, h2, Bool.not_false, Bool.false_or,
      Bool.true_and]
    by_cases hlt : ((idx : Nat) : Int) < limit
    · have hnb : ¬ limit < ((idx + 1 : Nat) : Int) := by push_cast; omega
      simp only [decide_eq_true hlt, if_true, decide_eq_false hnb,
        Bool.false_eq_true, if_false]
      rw [ih (idx + 1) (acc ++ [(idx, decode_with_fallback mid f.2, f.1)])
        (fun q hq => h q (List.mem_cons_of_mem _ hq))]
      simp only [List.length_append, List.length_cons, List.length_nil]
      push_cast
      omega
    · have hb : limit < ((idx + 1 : Nat) : Int) := by push_cast; omega
      simp only [decide_eq_false hlt, Bool.and_false, Bool.false_eq_true,
        if_false, decide_eq_true hb, if_true]
      simp only [List.length_cons]
      omega

/-- A multi-file torrent declaring 5 one-byte files `a..e`. -/
def c3Info : Bencode :=
  .dict [(nameKey, .str [78]),
    (filesKey, .list [T2DB.simpleFile [97] 1, T2DB.simpleFile [98] 1,
      T2DB.simpleFile [99] 1, T2DB.simpleFile [100] 1, T2DB.simpleFile [101] 1])]

def c3Td : List (List Nat × Bencode) := [(infoKey, c3Info)]

def c3D : T2DB.TorrentDetails :=
  { info_hash := [7], name := [78], total_size := 5, is_private := false,
    created_at := 0, updated_at := 0, files_status := "multi",
    files_count := some 5,
    files_info := [(0, [97], 1), (1, [98], 1), (2, [99], 1)] }

/-- **C3 is false as stated** for the bencode extractor
(`torrent2database`): 5 valid non-padding files with `add_files_limit = 3`
yield exactly 3 `FileEntry` tuples, but `file_status` is `"multi"`, never
`"over_threshold"` — that classification exists only in the magnetico
extractor. -/
theorem C3_counterexample :
    T2DB.get_torrent_details exMid exSha1 0 (some (.dict c3Td)) true 3 false =
      some c3D ∧
    c3D.files_count = some 5 ∧ (3 : Int) < 5 ∧
    c3D.files_info.length = 3 ∧
    c3D.files_status ≠ "over_threshold" := by
  refine ⟨by decide, rfl, by decide, rfl, by decide⟩

/-- **C3 (amended).**
(i) the magnetico extractor classifies `file_status` as `single` iff the
declared count is 1, `over_threshold` iff the count exceeds
`add_files_limit` (and is not 1), and `multi` otherwise;
(ii) the bencode extractor classifies `single` iff the info dictionary is
in single-file form (has a top-level `length` key) and `multi` otherwise —
never `over_threshold`;
(iii) and (iv): both file normalizers produce exactly
`min (declared count) max_files` entries on valid non-padding file lists —
in particular exactly `max_files` when the count exceeds the ceiling. -/
theorem C3_file_status_and_ceiling :
    (∀ (mid : MidDecoders) (row : M2DB.MagneticoRow) (limit : Int),
       (row.files_count = 1 →
         (M2DB.get_torrent_details mid row true limit).files_status = "single") ∧
       (row.files_count ≠ 1 → limit < row.files_count →
         (M2DB.get_torrent_details mid row true limit).files_status =
           "over_threshold") ∧
       (row.files_count ≠ 1 → row.files_count ≤ limit →
         (M2DB.get_torrent_details mid row true limit).files_status = "multi")) ∧
    (∀ (mid : MidDecoders) (sha1 : List Nat → List Nat) (now : Int)
       (add_files : Bool) (limit : Int) (pad : Bool)
       (td : List (List Nat × Bencode)) (info : Bencode)
       (info_dict : List (List Nat × Bencode)) (details : T2DB.TorrentDetails),
       bvLookup td infoKey = some info → asDict info = some info_dict →
       T2DB.get_torrent_details mid sha1 now (some (.dict td)) add_files limit
         pad = some details →
       details.files_status =
         (if (bvLookup info_dict lengthKey).isSome then "single" else "multi") ∧
       details.files_status ≠ "over_threshold") ∧
    (∀ (mid : MidDecoders) (limit : Int) (ps : List (List Nat × Int)),
       (∀ pr ∈ ps,
         containsSub paddingMark1 (decode_with_fallback mid pr.1) = false ∧
         containsSub paddingMark2 (decode_with_fallback mid pr.1) = false) →
       ∃ r, T2DB.filesLoop mid false limit
           (ps.map (fun pr => T2DB.simpleFile pr.1 pr.2)) 0 [] = some r ∧
         r.length = min ps.length limit.toNat) ∧
    (∀ (mid : MidDecoders) (d : M2DB.MDetails) (limit : Int)
       (files : List (Int × List Nat)),
       (∀ f ∈ files,
         containsSub paddingMark1 (decode_with_fallback mid f.2) = false ∧
         containsSub paddingMark2 (decode_with_fallback mid f.2) = false) →
       (M2DB.get_file_details mid d limit files false).length =
         min files.length limit.toNat) := by
  refine ⟨?_, ?_, ?_, ?_⟩
  · intro mid row limit
    refine ⟨?_, ?_, ?_⟩
    · intro h
      simp [M2DB.get_torrent_details, h]
    · intro h1 h2
      simp [M2DB.get_torrent_details, h1, decide_eq_true h2]
    · intro h1 h2
      have h3 : ¬ limit < row.files_count := not_lt.mpr h2
      simp [M2DB.get_torrent_details, h1, decide_eq_false h3]
  · intro mid sha1 now add_files limit pad td info info_dict details h1 h2 hext
    have h := T2DB.get_torrent_details_spec mid sha1 now add_files limit pad td
      info info_dict details h1 h2 hext
    refine ⟨h.2, ?_⟩
    rw [h.2]
    by_cases hlen : (bvLookup info_dict lengthKey).isSome <;> simp [hlen]
  · intro mid limit ps h
    obtain ⟨r, hr, hlen⟩ := T2DB.filesLoop_simple mid limit ps 0 [] h
    refine ⟨r, hr, ?_⟩
    simpa using hlen
  · intro mid d limit files h
    rw [M2DB.get_file_details, M2DB.fileDetailsLoop_len mid limit files 0 [] h]
    simp

def c3Row : M2DB.MagneticoRow :=
  { torrent_id := 1, info_hash := [9], name := [78], total_size := 5,
    discovered_on := 0, files_count := 5 }

def c3RowSingle : M2DB.MagneticoRow := { c3Row with files_count := 1 }

def c3Ps : List (List Nat × Int) :=
  [([97], 1), ([98], 1), ([99], 1), ([100], 1), ([101], 1)]

def c3MFiles : List (Int × List Nat) :=
  [(1, [97]), (1, [98]), (1, [99]), (1, [100]), (1, [101])]

def c3MD : M2DB.MDetails :=
  { torrent_id := 1, info_hash := [9], name := [], total_size := 5,
    is_private := false, created_at := 0, updated_at := 0,
    files_status := "multi", files_count := some 5 }

def c1InfoDict : List (List Nat × Bencode) :=
  [(lengthKey, .int 1), (nameKey, .str [65])]

theorem C3_file_status_and_ceiling_witness :
    (M2DB.get_torrent_details exMid c3Row true 3).files_status =
      "over_threshold" ∧
    (M2DB.get_torrent_details exMid c3RowSingle true 3).files_status =
      "single" ∧
    (M2DB.get_torrent_details exMid c3Row true 10).files_status = "multi" ∧
    (c1Details.files_status =
      (if (bvLookup c1InfoDict lengthKey).isSome then "single" else "multi") ∧
      c1Details.files_status ≠ "over_threshold") ∧
    (∃ r, T2DB.filesLoop exMid false 3
        (c3Ps.map (fun pr => T2DB.simpleFile pr.1 pr.2)) 0 [] = some r ∧
      r.length = min c3Ps.length (3 : Int).toNat) ∧
    (M2DB.get_file_details exMid c3MD 3 c3MFiles false).length =
      min c3MFiles.length (3 : Int).toNat := by
  refine ⟨?_, ?_, ?_, ?_, ?_, ?_⟩
  · exact (C3_file_status_and_ceiling.1 exMid c3Row 3).2.1 (by decide) (by decide)
  · exact (C3_file_status_and_ceiling.1 exMid c3RowSingle 3).1 rfl
  · exact (C3_file_status_and_ceiling.1 exMid c3Row 10).2.2 (by decide) (by decide)
  · exact C3_file_status_and_ceiling.2.1 exMid exSha1 0 false 100 false c1Td
      c1Info c1InfoDict c1Details rfl rfl rfl
  · exact C3_file_status_and_ceiling.2.2.1 exMid 3 c3Ps (by decide)
  · exact C3_file_status_and_ceiling.2.2.2 exMid c3MD 3 c3MFiles (by decide)

/-! ## C4 — file re-indexing in the fallback normalizer -/

/-- A padding entry followed by a normal file `a.txt`. -/
def c4Files : List (Int × List Nat) :=
  [(7, [46, 95, 95, 95, 95, 112, 97, 100, 100, 105, 110, 103]),
   (5, [97, 46, 116, 120, 116])]

/-- **C4 (code evaluated at the failing input).**  `get_file_details` of
`magnetico2database` does *not* re-index survivors densely: with a padding
entry at declared position 0, the sole surviving file keeps its original
position index 1, so the surviving indices are not `0..n-1` (the sibling
implementations — `get_torrent_details` of `torrent2database` and
`get_file_details_copy` — do re-index densely, as the specification
describes). -/
theorem C4_fallback_indices_not_dense :
    M2DB.get_file_details exMid c3MD 100 c4Files false =
      [(1, [97, 46, 116, 120, 116], 5)] ∧
    (M2DB.get_file_details exMid c3MD 100 c4Files false).map Prod.fst ≠
      List.range (M2DB.get_file_details exMid c3MD 100 c4Files false).length := by
  exact ⟨by decide, by decide⟩

/-! ## C6 — idempotence of source-attribution inserts -/

def c6Tbl : List SourceRow :=
  [{ source := "mag", info_hash := [1], published_at := 5 }]

def c6D : M2DB.MDetails :=
  { torrent_id := 1, info_hash := [1], name := [], total_size := 0,
    is_private := false, created_at := 5, updated_at := 5,
    files_status := "single", files_count := none }

/-- **C6 is false as stated**: with the destination already holding the
attribution `("mag", [1])`, inserting it again through the bulk-copy
strategy raises (PostgreSQL `COPY` has no conflict handling) instead of
being a silent no-op; only the batched `ON CONFLICT DO NOTHING` strategy
is a no-op. -/
theorem C6_counterexample :
    M2DB.insert_torrent_source true c6Tbl "mag" [c6D] = none ∧
    M2DB.insert_torrent_source false c6Tbl "mag" [c6D] = some c6Tbl := by
  exact ⟨by decide, by decide⟩

/-- Number of rows carrying a given `(source, info_hash)` key. -/
def countSourceKey (tbl : List SourceRow) (s : String) (h : List Nat) : Nat :=
  (tbl.filter (fun t => t.source == s && t.info_hash == h)).length

theorem insertSourceRow_idem (tbl : List SourceRow) (r : SourceRow) :
    insertSourceRow (insertSourceRow tbl r) r = insertSourceRow tbl r := by
  by_cases hc : tbl.any (fun t => t.source == r.source && t.info_hash == r.info_hash) = true
  · simp [insertSourceRow, hc]
  · simp only [insertSourceRow, hc, if_false, Bool.not_eq_true] at *
    simp [insertSourceRow, hc, List.any_append]

/-- **C6 (amended).**  Under the batched `INSERT ... ON CONFLICT DO
NOTHING` strategy (both loaders), inserting a `(source_key, info_hash)`
attribution already present is a silent no-op, and inserting the same
attribution twice leaves exactly one row; the bulk-copy strategy instead
raises on a duplicate attribution (no conflict handling in `COPY`). -/
theorem C6_attribution_idempotence :
    (∀ (tbl : List SourceRow) (r : SourceRow),
       insertSourceRow (insertSourceRow tbl r) r = insertSourceRow tbl r) ∧
    (∀ (tbl : List SourceRow) (r : SourceRow),
       countSourceKey tbl r.source r.info_hash = 0 →
       countSourceKey (insertSourceRow (insertSourceRow tbl r) r)
         r.source r.info_hash = 1) ∧
    (∀ (tbl : List SourceRow) (s : String) (d : M2DB.MDetails),
       M2DB.insert_torrent_source false tbl s [d] =
         some (insertSourceRow tbl
           { source := s, info_hash := d.info_hash, published_at := d.created_at })) ∧
    (∀ (db : Tables) (s : String) (h : List Nat) (c : Int),
       T2DB.insert_torrent_source (T2DB.insert_torrent_source db s h c) s h c =
         T2DB.insert_torrent_source db s h c) ∧
    (∀ (tbl : List SourceRow) (s : String) (d : M2DB.MDetails),
       tbl.any (fun t => t.source == s && t.info_hash == d.info_hash) = true →
       M2DB.insert_torrent_source true tbl s [d] = none) := by
  refine ⟨insertSourceRow_idem, ?_, ?_, ?_, ?_⟩
  · intro tbl r h0
    rw [insertSourceRow_idem]
    have hc : tbl.any (fun t => t.source == r.source && t.info_hash == r.info_hash) = false := by
      by_contra hx
      rw [Bool.not_eq_false, List.any_eq_true] at hx
      obtain ⟨x, hx1, hx2⟩ := hx
      have : (tbl.filter (fun t => t.source == r.source && t.info_hash == r.info_hash)).length ≠ 0 := by
        have hmem : x ∈ tbl.filter (fun t => t.source == r.source && t.info_hash == r.info_hash) :=
          List.mem_filter.mpr ⟨hx1, hx2⟩
        intro hlen
        rw [List.length_eq_zero] at hlen
        rw [hlen] at hmem
        exact List.not_mem_nil x hmem
      exact this h0
    simp [insertSourceRow, hc, countSourceKey, List.filter_append]
    intro x hx1 hx2
    intro hx3
    have : tbl.any (fun t => t.source == r.source && t.info_hash == r.info_hash) = true :=
      List.any_eq_true.mpr ⟨x, hx1, by simp [hx2, hx3]⟩
    rw [this] at hc
    exact Bool.noConfusion hc
  · intro tbl s d
    rfl
  · intro db s h c
    simp only [T2DB.insert_torrent_source]
    rw [insertSourceRow_idem]
  · intro tbl s d h
    simp [M2DB.insert_torrent_source, M2DB.copySourceRows, h]

def c6R : SourceRow := { source := "mag", info_hash := [1], published_at := 5 }

theorem C6_attribution_idempotence_witness :
    insertSourceRow (insertSourceRow [] c6R) c6R = insertSourceRow [] c6R ∧
    countSourceKey [] c6R.source c6R.info_hash = 0 ∧
    countSourceKey (insertSourceRow (insertSourceRow [] c6R) c6R)
      c6R.source c6R.info_hash = 1 ∧
    M2DB.insert_torrent_source false [] "mag" [c6D] =
      some (insertSourceRow []
        { source := "mag", info_hash := c6D.info_hash,
          published_at := c6D.created_at }) ∧
    T2DB.insert_torrent_source (T2DB.insert_torrent_source emptyTables "mag" [1] 5)
        "mag" [1] 5 =
      T2DB.insert_torrent_source emptyTables "mag" [1] 5 ∧
    c6Tbl.any (fun t => t.source == "mag" && t.info_hash == c6D.info_hash) = true ∧
    M2DB.insert_torrent_source true c6Tbl "mag" [c6D] = none := by
  refine ⟨C6_attribution_idempotence.1 [] c6R, by decide,
    C6_attribution_idempotence.2.1 [] c6R (by decide),
    C6_attribution_idempotence.2.2.1 [] "mag" c6D,
    C6_attribution_idempotence.2.2.2.1 emptyTables "mag" [1] 5, by decide,
    C6_attribution_idempotence.2.2.2.2 c6Tbl "mag" c6D (by decide)⟩

/-! ## C7 — duplicate file paths -/

theorem M2DB.seenPaths_cons_eq {k tid : Int} (ps : List (List Nat))
    (rest : List (Int × List (List Nat))) (hk : (k == tid) = true) :
    M2DB.seenPaths ((k, ps) :: rest) tid = ps := by
  simp [M2DB.seenPaths, List.find?_cons_of_pos, hk]

theorem M2DB.seenPaths_cons_ne {k tid : Int} (ps : List (List Nat))
    (rest : List (Int × List (List Nat))) (hk : (k == tid) = false) :
    M2DB.seenPaths ((k, ps) :: rest) tid = M2DB.seenPaths rest tid := by
  simp only [M2DB.seenPaths]
  rw [List.find?_cons_of_neg]
  simp [hk]

theorem M2DB.seenAdd_cons_ne {k tid : Int} (ps : List (List Nat))
    (rest : List (Int × List (List Nat))) (p : List Nat) (hk : (k == tid) = false) :
    M2DB.seenAdd ((k, ps) :: rest) tid p = (k, ps) :: M2DB.seenAdd rest tid p := by
  simp only [M2DB.seenAdd]
  rw [List.find?_cons_of_neg _ (by simp [hk])]
  cases hfind : (rest.find? (fun e => e.1 == tid)) with
  | none => simp [hfind, hk]
  | some e =>
    simp [hfind, hk]
    simpa using hk

theorem M2DB.seenPaths_seenAdd (seen : List (Int × List (List Nat))) (tid : Int)
    (p : List Nat) :
    M2DB.seenPaths (M2DB.seenAdd seen tid p) tid =
      M2DB.seenPaths seen tid ++ [p] := by
  induction seen with
  | nil => simp [M2DB.seenAdd, M2DB.seenPaths]
  | cons e rest ih =>
    obtain ⟨k, ps⟩ := e
    by_cases hk : (k == tid) = true
    · simp only [M2DB.seenAdd]
      rw [List.find?_cons_of_pos _ (by simp [hk])]
      simp only [Option.isSome_some, if_true, List.map_cons, hk, if_true]
      rw [M2DB.seenPaths_cons_eq _ _ hk, M2DB.seenPaths_cons_eq _ _ hk]
    · have hk' : (k == tid) = false := by simp at hk ⊢; exact hk
      rw [M2DB.seenAdd_cons_ne _ _ _ hk', M2DB.seenPaths_cons_ne _ _ hk',
        M2DB.seenPaths_cons_ne _ _ hk', ih]

theorem M2DB.copyStep_single_invariant (mid : MidDecoders) (d : M2DB.MDetails)
    (limit : Int) (pad : Bool) (st : M2DB.CopyState) (f : Int × Int × List Nat)
    (hf : f.1 = d.torrent_id)
    (hcorr : st.rows.map (fun r => r.path) = M2DB.seenPaths st.seen d.torrent_id)
    (hnd : (M2DB.seenPaths st.seen d.torrent_id).Nodup) :
    ((M2DB.copyStep mid [d] limit pad st f).rows.map (fun r => r.path) =
      M2DB.seenPaths (M2DB.copyStep mid [d] limit pad st f).seen d.torrent_id) ∧
    (M2DB.seenPaths (M2DB.copyStep mid [d] limit pad st f).seen d.torrent_id).Nodup := by
  simp only [M2DB.copyStep, hf]
  by_cases h1 : limit ≤ (((M2DB.seenPaths st.seen d.torrent_id).length : Nat) : Int)
  · simp only [decide_eq_true h1, if_true]
    exact ⟨hcorr, hnd⟩
  · simp only [decide_eq_false h1, Bool.false_eq_true, if_false]
    by_cases h2 : (M2DB.seenPaths st.seen d.torrent_id).contains
        (decode_with_fallback mid f.2.2) = true
    · simp only [h2, if_true]
      exact ⟨hcorr, hnd⟩
    · have h2' : (M2DB.seenPaths st.seen d.torrent_id).contains
          (decode_with_fallback mid f.2.2) = false := by
        simpa using h2
      simp only [h2', Bool.false_eq_true, if_false]
      have hpm : decode_with_fallback mid f.2.2 ∉ M2DB.seenPaths st.seen d.torrent_id := by
        simpa using h2
      by_cases h3 : (pad || (!(containsSub paddingMark1 (decode_with_fallback mid f.2.2)) &&
          !(containsSub paddingMark2 (decode_with_fallback mid f.2.2)))) = true
      · simp only [h3, if_true]
        have hfind : ([d].find? (fun t => t.torrent_id == d.torrent_id)) = some d :=
          List.find?_cons_of_pos _ (by simp)
        simp only [hfind]
        constructor
        · simp only [List.map_append, List.map_cons, List.map_nil,
            M2DB.seenPaths_seenAdd, hcorr]
        · rw [M2DB.seenPaths_seenAdd]
          simp [List.nodup_append, hnd, hpm]
      · have h3' : (pad || (!(containsSub paddingMark1 (decode_with_fallback mid f.2.2)) &&
            !(containsSub paddingMark2 (decode_with_fallback mid f.2.2)))) = false := by
          simpa using h3
        simp only [h3', Bool.false_eq_true, if_false]
        exact ⟨hcorr, hnd⟩

theorem M2DB.copyFold_single (mid : MidDecoders) (d : M2DB.MDetails)
    (limit : Int) (pad : Bool) :
    ∀ (files : List (Int × Int × List Nat)) (st : M2DB.CopyState),
      (∀ f ∈ files, f.1 = d.torrent_id) →
      st.rows.map (fun r => r.path) = M2DB.seenPaths st.seen d.torrent_id →
      (M2DB.seenPaths st.seen d.torrent_id).Nodup →
      ((files.foldl (M2DB.copyStep mid [d] limit pad) st).rows.map
          (fun r => r.path) =
        M2DB.seenPaths
          (files.foldl (M2DB.copyStep mid [d] limit pad) st).seen d.torrent_id) ∧
      (M2DB.seenPaths
        (files.foldl (M2DB.copyStep mid [d] limit pad) st).seen d.torrent_id).Nodup := by
  intro files
  induction files with
  | nil =>
    intro st h hcorr hnd
    exact ⟨hcorr, hnd⟩
  | cons f rest ih =>
    intro st h hcorr hnd
    obtain ⟨hc, hn⟩ := M2DB.copyStep_single_invariant mid d limit pad st f
      (h f (List.mem_cons_self _ _)) hcorr hnd
    simpa using ih (M2DB.copyStep mid [d] limit pad st f)
      (fun q hq => h q (List.mem_cons_of_mem _ hq)) hc hn

def c7D : M2DB.MDetails :=
  { torrent_id := 1, info_hash := [9], name := [], total_size := 7,
    is_private := false, created_at := 0, updated_at := 0,
    files_status := "multi", files_count := some 2 }

/-- The same path `"a"` declared twice for one torrent. -/
def c7DupPair : List (Int × List Nat) := [(3, [97]), (4, [97])]

/-- **C7 is false as stated** for the row-by-row normalizer:
`get_file_details` keeps both occurrences of a duplicated path (it neither
drops the later duplicate nor logs a diagnostic — its output here contains
the path twice). -/
theorem C7_counterexample :
    M2DB.get_file_details exMid c7D 100 c7DupPair false =
      [(0, [97], 3), (1, [97], 4)] ∧
    ((M2DB.get_file_details exMid c7D 100 c7DupPair false).map
      (fun fi => fi.2.1)).count [97] = 2 := by
  exact ⟨by decide, by decide⟩

def c7DupFiles : List (Int × Int × List Nat) := [(1, 3, [97]), (1, 4, [97])]

/-- **C7 (amended).**
(i) the bulk-copy normalizer `get_file_details_copy` keeps only the first
occurrence of each path within a torrent — its yielded paths are
duplicate-free;
(ii) concretely, a path declared twice yields one row (with the first
occurrence's size) plus one duplicate diagnostic;
(iii) the row-by-row path keeps duplicates in its `FileEntry` list — they
are only dropped, silently, by the destination's
`ON CONFLICT (info_hash, path) DO NOTHING` insert. -/
theorem C7_duplicate_path_handling :
    (∀ (mid : MidDecoders) (d : M2DB.MDetails) (limit : Int) (pad : Bool)
       (files : List (Int × Int × List Nat)),
       (∀ f ∈ files, f.1 = d.torrent_id) →
       ((M2DB.get_file_details_copy mid [d] limit pad files).rows.map
         (fun r => r.path)).Nodup) ∧
    (M2DB.get_file_details_copy exMid [c7D] 100 false c7DupFiles =
      { seen := [(1, [[97]])],
        rows := [{ info_hash := [9], idx := 0, path := [97], size := 3 }],
        logs := [.duplicateFilePath [97] 1] }) ∧
    (∀ (tbl : List FileRow) (r r' : FileRow),
       r.info_hash = r'.info_hash → r.path = r'.path →
       insertFileRow (insertFileRow tbl r) r' = insertFileRow tbl r) := by
  refine ⟨?_, by decide, ?_⟩
  · intro mid d limit pad files h
    obtain ⟨hc, hn⟩ := M2DB.copyFold_single mid d limit pad files
      { seen := [], rows := [], logs := [] } h (by simp [M2DB.seenPaths])
      (by simp [M2DB.seenPaths])
    rw [M2DB.get_file_details_copy, hc]
    exact hn
  · intro tbl r r' h1 h2
    by_cases hc : tbl.any (fun t => t.info_hash == r.info_hash && t.path == r.path) = true
    · simp only [insertFileRow, hc, if_true, ← h1, ← h2, hc]
    · have hc' : tbl.any (fun t => t.info_hash == r.info_hash && t.path == r.path) = false := by
        simpa using hc
      simp only [insertFileRow, hc', ← h1, ← h2, Bool.false_eq_true, if_false,
        List.any_append, hc']
      simp

def c7r : FileRow := { info_hash := [9], idx := 0, path := [97], size := 3 }

def c7rDup : FileRow := { info_hash := [9], idx := 1, path := [97], size := 4 }

theorem C7_duplicate_path_handling_witness :
    (∀ f ∈ c7DupFiles, f.1 = c7D.torrent_id) ∧
    ((M2DB.get_file_details_copy exMid [c7D] 100 false c7DupFiles).rows.map
      (fun r => r.path)).Nodup ∧
    c7r.info_hash = c7rDup.info_hash ∧ c7r.path = c7rDup.path ∧
    insertFileRow (insertFileRow [] c7r) c7rDup = insertFileRow [] c7r := by
  refine ⟨by decide, ?_, rfl, rfl, ?_⟩
  · exact C7_duplicate_path_handling.1 exMid c7D 100 false c7DupFiles (by decide)
  · exact C7_duplicate_path_handling.2.2 [] c7r c7rDup rfl rfl

/-! ## C9 — locality of extraction errors, and the unchecked `length` -/

/-- The run configuration of the C9 scenarios: default flags, constant
digest, source tag `tor`, no write faults. -/
def c9Env : T2DB.Env :=
  { mid := exMid, sha1 := fun _ => [3], now := 0, tfail := fun _ => false,
    source_name := "tor", add_files := false, add_files_limit := 100,
    negative_to_zero := false, force_import_negative := false,
    import_padding := false }

/-- An info dictionary whose `length` is present but *not* an integer:
the bencode string `abc`. -/
def c9BadInfo : Bencode :=
  .dict [(lengthKey, .str [97, 98, 99]), (nameKey, .str [65])]

/-- A torrent whose `length` is present but malformed (a bencode string). -/
def c9Bad : T2DB.TorrentFileInput :=
  { path := "bad-length.torrent", parsed := some (.dict [(infoKey, c9BadInfo)]) }

/-- A well-formed single-file torrent following the malformed one. -/
def c9Good : T2DB.TorrentFileInput :=
  { path := "good.torrent",
    parsed := some (.dict [(infoKey,
      .dict [(lengthKey, .int 1), (nameKey, .str [66])])]) }

/-- A torrent whose `length` (and `files`) key is absent: extraction
raises inside the `try` and is caught at lines 88–93. -/
def c9Missing : T2DB.TorrentFileInput :=
  { path := "missing-length.torrent",
    parsed := some (.dict [(infoKey, .dict [(nameKey, .str [67])])]) }

/-- The tuple line 87 returns for `c9Bad`: the size slot carries the raw
bencode string. -/
def c9Raw : T2DB.RawTorrentDetails :=
  { info_hash := [3], name := [65], total_size := .str [97, 98, 99],
    is_private := false, created_at := 0, updated_at := 0,
    files_status := "single", files_count := none, files_info := [] }

/-- The torrents row the load of `c9Good` writes. -/
def c9GoodRow : TorrentRow :=
  { info_hash := [3], name := [66], size := 1, is_private := false,
    created_at := 0, updated_at := 0, files_status := "single",
    files_count := none }

/-- The destination after loading `c9Good` alone into an empty database. -/
def c9GoodTables : Tables :=
  { torrents := [c9GoodRow],
    torrent_files := [],
    torrents_torrent_sources :=
      [{ source := "tor", info_hash := [3], published_at := 0 }],
    torrent_contents := [{ info_hash := [3], created_at := 0 }] }

/-- When extraction raises — caught by the `except` of lines 88–93 — the
failure is local exactly as the claim states: the record's path is logged
and the loop continues over the remaining records with the same tables. -/
theorem T2DB.raw_extraction_error_is_local (env : T2DB.Env)
    (item : T2DB.TorrentFileInput) (rest : List T2DB.TorrentFileInput)
    (db : Tables) (log : List T2DB.LogEntry)
    (h : T2DB.get_torrent_details_raw env.mid env.sha1 env.now item.parsed
      env.add_files env.add_files_limit env.import_padding = none) :
    T2DB.process_torrent_files_raw env (item :: rest) (db, log) =
      T2DB.process_torrent_files_raw env rest
        (db, log ++ [.extractionError item.path]) := by
  simp [T2DB.process_torrent_files_raw, T2DB.process_record_raw, h]

/-- **C9.**  Refuted as stated: a *present but malformed* `length` does
abort the batch.  For the record `c9Bad`, whose `length` is the bencode
string `abc`, (1) `get_torrent_details` raises nothing — line 81 assigns
the raw value and line 87 returns the tuple `c9Raw`; (2) the size slot of
that tuple is not an integer, so the comparison
`torrent_details[:-1][2] < 0` at line 206 raises an uncaught `TypeError`;
(3) the whole run therefore dies at that record — nothing is logged for
it and the well-formed record behind it is never processed; whereas
(4) a record whose `length` is *absent* (`c9Missing`) is handled exactly
as the claim says: extraction fails locally, the path is logged, and the
following record is loaded normally.  The spec (§4.2, §7) and the
catch-all `except` of lines 88–93 make the local-failure behaviour the
intent, so the escaping `TypeError` is a defect of the code. -/
theorem C9_malformed_length_aborts_run :
    T2DB.get_torrent_details_raw c9Env.mid c9Env.sha1 c9Env.now c9Bad.parsed
        c9Env.add_files c9Env.add_files_limit c9Env.import_padding = some c9Raw ∧
    asInt c9Raw.total_size = none ∧
    T2DB.process_torrent_files_raw c9Env [c9Bad, c9Good] (emptyTables, []) =
      .error (emptyTables, []) ∧
    T2DB.process_torrent_files_raw c9Env [c9Missing, c9Good] (emptyTables, []) =
      .ok (c9GoodTables, [.extractionError "missing-length.torrent"]) :=
  ⟨rfl, rfl, rfl, rfl⟩
